import Mathlib

set_option maxHeartbeats 1000000

/-! Shallow embedding of `src/linked_list.rs`: a doubly-linked list over raw
pointers, together with its double-ended iterator and the `CursorMut`
abstraction. The heap of nodes is explicit: addresses are naturals, and a
`Mem` maps addresses to allocated nodes. Behaviour that is undefined or
panics in the original (dereferencing a dangling pointer, `Option::unwrap`
on `None`, `usize` underflow) is modelled by `Option`, `none` meaning the
original program has no defined result at that point. -/

/-- Node of the doubly-linked list (`struct Node<T>`): the two neighbour
links (heap addresses, absent at a boundary) and the element. -/
structure Node (T : Type) where
  prev : Option Nat
  next : Option Nat
  elem : T

/-- Heap of allocated nodes together with a counter supplying fresh
addresses for allocation. -/
structure Mem (T : Type) where
  map : Nat → Option (Node T)
  nextAddr : Nat

/-- Overwrite the node stored at address `a`. -/
def Mem.write {T : Type} (m : Mem T) (a : Nat) (nd : Node T) : Mem T :=
  ⟨fun b => if b = a then some nd else m.map b, m.nextAddr⟩

/-- Deallocate the node at address `a` (the drop of a `Box::from_raw`). -/
def Mem.free {T : Type} (m : Mem T) (a : Nat) : Mem T :=
  ⟨fun b => if b = a then none else m.map b, m.nextAddr⟩

/-- Allocate a fresh node (`Box::into_raw(Box::new(..))`), returning the new
heap and the address of the node. -/
def Mem.alloc {T : Type} (m : Mem T) (nd : Node T) : Mem T × Nat :=
  (⟨fun b => if b = m.nextAddr then some nd else m.map b, m.nextAddr + 1⟩, m.nextAddr)

/-- Store `(*a).prev = p`; `none` when `a` is dangling. -/
def Mem.setPrev {T : Type} (m : Mem T) (a : Nat) (p : Option Nat) : Option (Mem T) :=
  (m.map a).map fun nd => m.write a { nd with prev := p }

/-- Store `(*a).next = x`; `none` when `a` is dangling. -/
def Mem.setNext {T : Type} (m : Mem T) (a : Nat) (x : Option Nat) : Option (Mem T) :=
  (m.map a).map fun nd => m.write a { nd with next := x }

/-- Subtraction on `usize`, which panics on underflow in the original:
modelled as a checked subtraction. -/
def checkedSub (a b : Nat) : Option Nat := if b ≤ a then some (a - b) else none

/-- The list header (`struct LinkedList<T>`): head and tail addresses and the
stored length. -/
structure LinkedList (T : Type) where
  head : Option Nat
  tail : Option Nat
  len : Nat

/-- `LinkedList::new`. -/
def LinkedList.new {T : Type} : LinkedList T := ⟨none, none, 0⟩

/-- `LinkedList::push_front`: allocate a node, link it before the old head
(or make it both head and tail of an empty list), bump `len`. -/
def LinkedList.push_front {T : Type} (m : Mem T) (l : LinkedList T) (elem : T) :
    Option (Mem T × LinkedList T) :=
  let r := m.alloc ⟨none, none, elem⟩
  let m1 := r.1
  let new_node := r.2
  match l.head with
  | some old_head => do
    let m2 ← m1.setPrev old_head (some new_node)
    let m3 ← m2.setNext new_node (some old_head)
    pure (m3, ⟨some new_node, l.tail, l.len + 1⟩)
  | none =>
    pure (m1, ⟨some new_node, some new_node, l.len + 1⟩)

/-- `LinkedList::push_back`: mirror of `push_front` at the tail. -/
def LinkedList.push_back {T : Type} (m : Mem T) (l : LinkedList T) (elem : T) :
    Option (Mem T × LinkedList T) :=
  let r := m.alloc ⟨none, none, elem⟩
  let m1 := r.1
  let new_node := r.2
  match l.tail with
  | some old_tail => do
    let m2 ← m1.setNext old_tail (some new_node)
    let m3 ← m2.setPrev new_node (some old_tail)
    pure (m3, ⟨l.head, some new_node, l.len + 1⟩)
  | none =>
    pure (m1, ⟨some new_node, some new_node, l.len + 1⟩)

/-- `LinkedList::pop_front`: detach the head node, promote its successor
(clearing that successor's `prev`), free the node, return its element.
Returns the element slot `none` when the list was empty. -/
def LinkedList.pop_front {T : Type} (m : Mem T) (l : LinkedList T) :
    Option (Mem T × LinkedList T × Option T) :=
  match l.head with
  | none => some (m, l, none)
  | some head => do
    let boxed_head ← m.map head
    let len' ← checkedSub l.len 1
    match boxed_head.next with
    | some new_head => do
      let m1 ← m.setPrev new_head none
      pure (m1.free head, ⟨some new_head, l.tail, len'⟩, some boxed_head.elem)
    | none =>
      pure (m.free head, ⟨none, none, len'⟩, some boxed_head.elem)

/-- `LinkedList::pop_back`: mirror of `pop_front` at the tail. -/
def LinkedList.pop_back {T : Type} (m : Mem T) (l : LinkedList T) :
    Option (Mem T × LinkedList T × Option T) :=
  match l.tail with
  | none => some (m, l, none)
  | some tail => do
    let boxed_tail ← m.map tail
    let len' ← checkedSub l.len 1
    match boxed_tail.prev with
    | some new_tail => do
      let m1 ← m.setNext new_tail none
      pure (m1.free tail, ⟨l.head, some new_tail, len'⟩, some boxed_tail.elem)
    | none =>
      pure (m.free tail, ⟨none, none, len'⟩, some boxed_tail.elem)

/-- Loop body of `LinkedList::clear` (`while self.pop_front().is_some() {}`),
with explicit fuel bounding the number of successful pops. -/
def LinkedList.clearLoop {T : Type} (m : Mem T) (l : LinkedList T) :
    Nat → Option (Mem T × LinkedList T)
  | 0 => do
    let r ← l.pop_front m
    match r.2.2 with
    | none => pure (r.1, r.2.1)
    | some _ => none
  | fuel + 1 => do
    let r ← l.pop_front m
    match r.2.2 with
    | none => pure (r.1, r.2.1)
    | some _ => LinkedList.clearLoop r.1 r.2.1 fuel

/-- `LinkedList::clear`: pop from the front until empty. The stored length
is enough fuel for a well-formed list. -/
def LinkedList.clear {T : Type} (m : Mem T) (l : LinkedList T) :
    Option (Mem T × LinkedList T) :=
  LinkedList.clearLoop m l l.len

/-- The shared double-ended iterator state (`struct Iter<'a, T>`): a front
pointer, a back pointer and the remaining count. -/
structure Iter (T : Type) where
  front : Option Nat
  back : Option Nat
  len : Nat

/-- `LinkedList::iter`. -/
def LinkedList.iter {T : Type} (l : LinkedList T) : Iter T := ⟨l.head, l.tail, l.len⟩

/-- `Iter::next`: when the remaining count is positive and the front pointer
is present, yield that node's element and advance the front pointer;
otherwise yield nothing and leave the iterator unchanged. -/
def Iter.next {T : Type} (m : Mem T) (it : Iter T) : Option (Option T × Iter T) :=
  if 0 < it.len then
    match it.front with
    | none => some (none, it)
    | some front => do
      let nd ← m.map front
      let len' ← checkedSub it.len 1
      pure (some nd.elem, ⟨nd.next, it.back, len'⟩)
  else some (none, it)

/-- `Iter::next_back`: mirror of `Iter::next` at the back pointer. -/
def Iter.next_back {T : Type} (m : Mem T) (it : Iter T) : Option (Option T × Iter T) :=
  if 0 < it.len then
    match it.back with
    | none => some (none, it)
    | some back => do
      let nd ← m.map back
      let len' ← checkedSub it.len 1
      pure (some nd.elem, ⟨it.front, nd.prev, len'⟩)
  else some (none, it)

/-- Drain an iterator through repeated `Iter::next` calls, collecting the
yielded elements; the fuel bounds the number of yields. -/
def Iter.drain {T : Type} (m : Mem T) : Nat → Iter T → Option (List T)
  | 0, it => do
    let r ← it.next m
    match r.1 with
    | none => pure []
    | some _ => none
  | fuel + 1, it => do
    let r ← it.next m
    match r.1 with
    | none => pure []
    | some v => do
      let vs ← Iter.drain m fuel r.2
      pure (v :: vs)

/-- The element sequence a list yields when iterated front to back. -/
def LinkedList.seq {T : Type} (m : Mem T) (l : LinkedList T) : Option (List T) :=
  Iter.drain m l.len l.iter

/-- PartialEq for `LinkedList`:
`self.len() == other.len() && self.iter().eq(other)`. `Iterator::eq`
compares the two yielded element sequences elementwise, which for these
finite iterators is equality of the drained sequences. -/
def LinkedList.eqImpl {T : Type} [DecidableEq T] (m1 : Mem T) (l1 : LinkedList T)
    (m2 : Mem T) (l2 : LinkedList T) : Option Bool := do
  let s1 ← l1.seq m1
  let s2 ← l2.seq m2
  pure (l1.len == l2.len && s1 == s2)

/-- Semantics of Rust's `Iterator::cmp` on two finite element sequences:
elementwise comparison, a shorter sequence that is a proper front segment of
the other comparing as less. -/
def lexCmp {T : Type} (cmp : T → T → Ordering) : List T → List T → Ordering
  | [], [] => .eq
  | [], _ :: _ => .lt
  | _ :: _, [] => .gt
  | a :: as, b :: bs =>
    match cmp a b with
    | .eq => lexCmp cmp as bs
    | o => o

/-- Semantics of Rust's `Iterator::partial_cmp` on two finite element
sequences, for a partial elementwise comparison. -/
def plexCmp {T : Type} (pc : T → T → Option Ordering) : List T → List T → Option Ordering
  | [], [] => some .eq
  | [], _ :: _ => some .lt
  | _ :: _, [] => some .gt
  | a :: as, b :: bs =>
    match pc a b with
    | some .eq => plexCmp pc as bs
    | o => o

/-- Ord for `LinkedList`: `self.iter().cmp(other)`. -/
def LinkedList.cmpImpl {T : Type} (cmp : T → T → Ordering) (m1 : Mem T) (l1 : LinkedList T)
    (m2 : Mem T) (l2 : LinkedList T) : Option Ordering := do
  let s1 ← l1.seq m1
  let s2 ← l2.seq m2
  pure (lexCmp cmp s1 s2)

/-- PartialOrd for `LinkedList`: `self.iter().partial_cmp(other)`. -/
def LinkedList.partialCmpImpl {T : Type} (pc : T → T → Option Ordering) (m1 : Mem T)
    (l1 : LinkedList T) (m2 : Mem T) (l2 : LinkedList T) : Option (Option Ordering) := do
  let s1 ← l1.seq m1
  let s2 ← l2.seq m2
  pure (plexCmp pc s1 s2)

/-- Hash for `LinkedList`: `self.len().hash(state)` followed by hashing each
element in iteration order — modelled as the trace of values fed to the
hasher: the length first, then the element sequence. -/
def LinkedList.hashTrace {T : Type} (m : Mem T) (l : LinkedList T) : Option (Nat × List T) :=
  (l.seq m).map fun s => (l.len, s)

/-- The cursor (`struct CursorMut<'a, T>`): current node address (absent at
the ghost), the exclusively borrowed list, and the current index (absent at
the ghost). -/
structure CursorMut (T : Type) where
  cur : Option Nat
  list : LinkedList T
  index : Option Nat

/-- `LinkedList::cursor_mut`: a fresh cursor at the ghost position. -/
def LinkedList.cursor_mut {T : Type} (l : LinkedList T) : CursorMut T :=
  ⟨none, l, none⟩

/-- `CursorMut::move_next`: advance to the current node's successor, or from
the ghost onto the head of a non-empty list. -/
def CursorMut.move_next {T : Type} (m : Mem T) (c : CursorMut T) : Option (CursorMut T) :=
  match c.cur with
  | some cur => do
    let nd ← m.map cur
    match nd.next with
    | some nxt => do
      let i ← c.index
      pure { c with cur := some nxt, index := some (i + 1) }
    | none => pure { c with cur := none, index := none }
  | none =>
    if c.list.len = 0 then pure c
    else pure { c with cur := c.list.head, index := some 0 }

/-- `CursorMut::move_prev`: retreat to the current node's predecessor, or
from the ghost onto the tail of a non-empty list. -/
def CursorMut.move_prev {T : Type} (m : Mem T) (c : CursorMut T) : Option (CursorMut T) :=
  match c.cur with
  | some cur => do
    let nd ← m.map cur
    match nd.prev with
    | some p => do
      let i ← c.index
      let i' ← checkedSub i 1
      pure { c with cur := some p, index := some i' }
    | none => pure { c with cur := none, index := none }
  | none =>
    if c.list.len = 0 then pure c
    else do
      let i ← checkedSub c.list.len 1
      pure { c with cur := c.list.tail, index := some i }

/-- `CursorMut::split_before`: cut the chain just before the current node,
return the front part as a new list, keep the rest (cursor resets to index
0); at the ghost, detach and return the whole list. -/
def CursorMut.split_before {T : Type} (m : Mem T) (c : CursorMut T) :
    Option (Mem T × CursorMut T × LinkedList T) :=
  match c.cur with
  | some cur => do
    let nd ← m.map cur
    let prev := nd.prev
    let m1 ←
      match prev with
      | some p => do
        let ma ← m.setNext p none
        ma.setPrev cur none
      | none => pure m
    let i ← c.index
    let splitted_list : LinkedList T :=
      ⟨match prev with | some _ => c.list.head | none => none, prev, i⟩
    let len' ← checkedSub c.list.len i
    pure (m1, ⟨some cur, ⟨some cur, c.list.tail, len'⟩, some 0⟩, splitted_list)
  | none =>
    pure (m, { c with list := LinkedList.new }, c.list)

/-- `CursorMut::split_after`: cut the chain just after the current node,
return the back part as a new list, keep the front (cursor unchanged); at
the ghost, detach and return the whole list. -/
def CursorMut.split_after {T : Type} (m : Mem T) (c : CursorMut T) :
    Option (Mem T × CursorMut T × LinkedList T) :=
  match c.cur with
  | some cur => do
    let nd ← m.map cur
    let nxt := nd.next
    let m1 ←
      match nxt with
      | some n => do
        let ma ← m.setPrev n none
        ma.setNext cur none
      | none => pure m
    let i ← c.index
    let d1 ← checkedSub c.list.len i
    let len2 ← checkedSub d1 1
    let splitted_list : LinkedList T :=
      ⟨nxt, match nxt with | some _ => c.list.tail | none => none, len2⟩
    pure (m1, ⟨some cur, ⟨c.list.head, some cur, i + 1⟩, c.index⟩, splitted_list)
  | none =>
    pure (m, { c with list := LinkedList.new }, c.list)

/-- `CursorMut::splice_before`: link the whole `input` chain in just before
the current node (at the ghost: after the tail, or adopt `input` wholesale
when the list is empty). Returns the heap, the cursor with its updated list,
and the final state of the consumed `input`. -/
def CursorMut.splice_before {T : Type} (m : Mem T) (c : CursorMut T) (input : LinkedList T) :
    Option (Mem T × CursorMut T × LinkedList T) :=
  if input.len = 0 then
    some (m, c, input)
  else
    match c.cur with
    | some cur => do
      let nd ← m.map cur
      let prev := nd.prev
      let m1 ←
        match prev with
        | some p => do
          let ma ← m.setNext p input.head
          let ih ← input.head
          ma.setPrev ih (some p)
        | none => pure m
      let head' := match prev with | some _ => c.list.head | none => input.head
      let m2 ← m1.setPrev cur input.tail
      let itl ← input.tail
      let m3 ← m2.setNext itl (some cur)
      let i ← c.index
      pure (m3, ⟨some cur, ⟨head', c.list.tail, c.list.len + input.len⟩,
        some (i + input.len)⟩, ⟨none, none, 0⟩)
    | none =>
      match c.list.tail with
      | some tail => do
        let m1 ← m.setNext tail input.head
        let ih ← input.head
        let m2 ← m1.setPrev ih (some tail)
        pure (m2, ⟨none, ⟨c.list.head, input.tail, c.list.len + input.len⟩, c.index⟩,
          ⟨none, none, 0⟩)
      | none =>
        pure (m, ⟨none, input, c.index⟩, ⟨none, none, 0⟩)

/-- `CursorMut::splice_after`: link the whole `input` chain in just after
the current node (at the ghost: before the head, or adopt `input` wholesale
when the list is empty). Returns the heap, the cursor with its updated list,
and the final state of the consumed `input`. -/
def CursorMut.splice_after {T : Type} (m : Mem T) (c : CursorMut T) (input : LinkedList T) :
    Option (Mem T × CursorMut T × LinkedList T) :=
  if input.len = 0 then
    some (m, c, input)
  else
    match c.cur with
    | some cur => do
      let nd ← m.map cur
      let nxt := nd.next
      let m1 ←
        match nxt with
        | some n => do
          let ma ← m.setPrev n input.tail
          let itl ← input.tail
          ma.setNext itl (some n)
        | none => pure m
      let tail' := match nxt with | some _ => c.list.tail | none => input.tail
      let m2 ← m1.setNext cur input.head
      let ih ← input.head
      let m3 ← m2.setPrev ih (some cur)
      pure (m3, ⟨some cur, ⟨c.list.head, tail', c.list.len + input.len⟩, c.index⟩,
        ⟨none, none, 0⟩)
    | none =>
      match c.list.head with
      | some head => do
        let m1 ← m.setPrev head input.tail
        let itl ← input.tail
        let m2 ← m1.setNext itl (some head)
        pure (m2, ⟨none, ⟨input.head, c.list.tail, c.list.len + input.len⟩, c.index⟩,
          ⟨none, none, 0⟩)
      | none =>
        pure (m, ⟨none, input, c.index⟩, ⟨none, none, 0⟩)

/-- Step `boxed_node.prev.map(|prev| (*prev).next = boxed_node.next)` of
`remove_current`: point the predecessor (when present) past the removed node. -/
def relinkPrevSide {T : Type} (m : Mem T) (pr nx : Option Nat) : Option (Mem T) :=
  match pr with
  | some p => m.setNext p nx
  | none => pure m

/-- Step `boxed_node.next.map(|next| (*next).prev = boxed_node.prev)` of
`remove_current`: point the successor (when present) past the removed node. -/
def relinkNextSide {T : Type} (m : Mem T) (pr nx : Option Nat) : Option (Mem T) :=
  match nx with
  | some n => m.setPrev n pr
  | none => pure m

/-- `CursorMut::remove_current`: unlink and free the current node, return
its element, advance the cursor to the former successor (keeping the index)
or to the ghost; a no-op returning nothing at the ghost. -/
def CursorMut.remove_current {T : Type} (m : Mem T) (c : CursorMut T) :
    Option (Mem T × CursorMut T × Option T) :=
  match c.cur with
  | none => some (m, c, none)
  | some cur => do
    let boxed_node ← m.map cur
    let m1 ← relinkPrevSide m boxed_node.prev boxed_node.next
    let m2 ← relinkNextSide m1 boxed_node.prev boxed_node.next
    let head' := if boxed_node.prev = none then boxed_node.next else c.list.head
    let tail' := if boxed_node.next = none then boxed_node.prev else c.list.tail
    let index' := if boxed_node.next = none then none else c.index
    let len' ← checkedSub c.list.len 1
    pure (m2.free cur, ⟨boxed_node.next, ⟨head', tail', len'⟩, index'⟩,
      some boxed_node.elem)

/-! Representation predicate: a doubly-linked segment in the heap. -/


/-- `dlseg m p x as es y q`: the addresses `as` hold, in `m`, a doubly-linked
chain carrying the elements `es`; `x` points at the first node, whose `prev`
is `p`; the last node's `next` is `y`, and `q` points at the last node. An
empty segment forces `x = y` and `p = q`. -/
def dlseg {T : Type} (m : Mem T) : Option Nat → Option Nat → List Nat → List T →
    Option Nat → Option Nat → Prop
  | p, x, [], es, y, q => es = [] ∧ x = y ∧ p = q
  | p, x, a :: as, es, y, q =>
    ∃ nd es', m.map a = some nd ∧ es = nd.elem :: es' ∧ x = some a ∧ nd.prev = p ∧
      dlseg m (some a) nd.next as es' y q

lemma dlseg_nil_iff {T : Type} {m : Mem T} {p x y q : Option Nat} {es : List T} :
    dlseg m p x [] es y q ↔ es = [] ∧ x = y ∧ p = q := by
  rw [dlseg]

lemma dlseg_cons_iff {T : Type} {m : Mem T} {p x y q : Option Nat} {a : Nat}
    {as : List Nat} {es : List T} :
    dlseg m p x (a :: as) es y q ↔
      ∃ nd es', m.map a = some nd ∧ es = nd.elem :: es' ∧ x = some a ∧ nd.prev = p ∧
        dlseg m (some a) nd.next as es' y q := by
  rw [dlseg]

lemma Mem.map_write {T : Type} (m : Mem T) (a : Nat) (nd : Node T) (b : Nat) :
    (m.write a nd).map b = if b = a then some nd else m.map b := rfl

lemma Mem.map_free {T : Type} (m : Mem T) (a b : Nat) :
    (m.free a).map b = if b = a then none else m.map b := rfl

lemma Mem.nextAddr_write {T : Type} (m : Mem T) (a : Nat) (nd : Node T) :
    (m.write a nd).nextAddr = m.nextAddr := rfl

lemma Mem.nextAddr_free {T : Type} (m : Mem T) (a : Nat) :
    (m.free a).nextAddr = m.nextAddr := rfl

lemma Mem.setPrev_eq {T : Type} {m : Mem T} {a : Nat} {nd : Node T}
    (h : m.map a = some nd) (p : Option Nat) :
    m.setPrev a p = some (m.write a { nd with prev := p }) := by
  simp [Mem.setPrev, h]

lemma Mem.setNext_eq {T : Type} {m : Mem T} {a : Nat} {nd : Node T}
    (h : m.map a = some nd) (x : Option Nat) :
    m.setNext a x = some (m.write a { nd with next := x }) := by
  simp [Mem.setNext, h]

lemma dlseg.length_eq {T : Type} {m : Mem T} {p x y q : Option Nat}
    {as : List Nat} {es : List T} (h : dlseg m p x as es y q) :
    es.length = as.length := by
  induction as generalizing p x es with
  | nil => rw [dlseg_nil_iff] at h; simp [h.1]
  | cons a as ih =>
    rw [dlseg_cons_iff] at h
    obtain ⟨nd, es', _, rfl, _, _, hrest⟩ := h
    simp [ih hrest]

lemma dlseg.congr {T : Type} {m m' : Mem T} {p x y q : Option Nat}
    {as : List Nat} {es : List T} (hagree : ∀ a ∈ as, m'.map a = m.map a)
    (h : dlseg m p x as es y q) : dlseg m' p x as es y q := by
  induction as generalizing p x es with
  | nil => rw [dlseg_nil_iff] at h ⊢; exact h
  | cons a as ih =>
    rw [dlseg_cons_iff] at h ⊢
    obtain ⟨nd, es', hnd, rfl, hx, hp, hrest⟩ := h
    refine ⟨nd, es', ?_, rfl, hx, hp, ?_⟩
    · rw [hagree a (by simp), hnd]
    · exact ih (fun b hb => hagree b (by simp [hb])) hrest

lemma dlseg.append {T : Type} {m : Mem T} {p x z w y q : Option Nat}
    {as₁ as₂ : List Nat} {es₁ es₂ : List T}
    (h₁ : dlseg m p x as₁ es₁ z w) (h₂ : dlseg m w z as₂ es₂ y q) :
    dlseg m p x (as₁ ++ as₂) (es₁ ++ es₂) y q := by
  induction as₁ generalizing p x es₁ with
  | nil =>
    rw [dlseg_nil_iff] at h₁
    obtain ⟨rfl, rfl, rfl⟩ := h₁
    simpa using h₂
  | cons a as ih =>
    rw [dlseg_cons_iff] at h₁
    obtain ⟨nd, es', hnd, rfl, hx, hp, hrest⟩ := h₁
    rw [List.cons_append, List.cons_append, dlseg_cons_iff]
    exact ⟨nd, es' ++ es₂, hnd, rfl, hx, hp, ih hrest⟩

lemma dlseg.split {T : Type} {m : Mem T} {p x y q : Option Nat}
    {as₁ as₂ : List Nat} {es : List T}
    (h : dlseg m p x (as₁ ++ as₂) es y q) :
    ∃ es₁ es₂ z w, es = es₁ ++ es₂ ∧ es₁.length = as₁.length ∧
      dlseg m p x as₁ es₁ z w ∧ dlseg m w z as₂ es₂ y q := by
  induction as₁ generalizing p x es with
  | nil =>
    exact ⟨[], es, x, p, rfl, rfl, by rw [dlseg_nil_iff]; exact ⟨rfl, rfl, rfl⟩,
      by simpa using h⟩
  | cons a as ih =>
    rw [List.cons_append, dlseg_cons_iff] at h
    obtain ⟨nd, es', hnd, rfl, hx, hp, hrest⟩ := h
    obtain ⟨es₁, es₂, z, w, rfl, hlen, hseg₁, hseg₂⟩ := ih hrest
    refine ⟨nd.elem :: es₁, es₂, z, w, rfl, by simp [hlen], ?_, hseg₂⟩
    rw [dlseg_cons_iff]
    exact ⟨nd, es₁, hnd, rfl, hx, hp, hseg₁⟩

lemma dlseg_singleton_iff {T : Type} {m : Mem T} {p x y q : Option Nat} {a : Nat}
    {es : List T} :
    dlseg m p x [a] es y q ↔
      ∃ nd, m.map a = some nd ∧ es = [nd.elem] ∧ x = some a ∧ q = some a ∧
        nd.prev = p ∧ nd.next = y := by
  rw [dlseg_cons_iff]
  constructor
  · rintro ⟨nd, es', hnd, rfl, hx, hp, hrest⟩
    rw [dlseg_nil_iff] at hrest
    obtain ⟨rfl, h1, h2⟩ := hrest
    exact ⟨nd, hnd, rfl, hx, h2.symm, hp, h1⟩
  · rintro ⟨nd, hnd, rfl, hx, hq, hp, hy⟩
    refine ⟨nd, [], hnd, rfl, hx, hp, ?_⟩
    rw [dlseg_nil_iff]
    exact ⟨rfl, hy, hq.symm⟩

lemma dlseg_snoc_iff {T : Type} {m : Mem T} {p x y q : Option Nat} {a : Nat}
    {as : List Nat} {es : List T} :
    dlseg m p x (as ++ [a]) es y q ↔
      ∃ nd es', m.map a = some nd ∧ es = es' ++ [nd.elem] ∧ q = some a ∧
        nd.next = y ∧ dlseg m p x as es' (some a) nd.prev := by
  constructor
  · intro h
    obtain ⟨es₁, es₂, z, w, rfl, hlen, hseg₁, hseg₂⟩ := h.split
    rw [dlseg_singleton_iff] at hseg₂
    obtain ⟨nd, hnd, rfl, hz, hq, hp, hy⟩ := hseg₂
    rw [hz, ← hp] at hseg₁
    exact ⟨nd, es₁, hnd, rfl, hq, hy, hseg₁⟩
  · rintro ⟨nd, es', hnd, rfl, hq, hy, hseg⟩
    refine hseg.append ?_
    rw [dlseg_singleton_iff]
    exact ⟨nd, hnd, rfl, rfl, hq, rfl, hy⟩

lemma Mem.map_write_ne {T : Type} (m : Mem T) {a b : Nat} (h : b ≠ a) (nd : Node T) :
    (m.write a nd).map b = m.map b := by
  simp [Mem.map_write, h]

lemma Mem.map_write_self {T : Type} (m : Mem T) (a : Nat) (nd : Node T) :
    (m.write a nd).map a = some nd := by
  simp [Mem.map_write]

lemma Mem.map_free_ne {T : Type} (m : Mem T) {a b : Nat} (h : b ≠ a) :
    (m.free a).map b = m.map b := by
  simp [Mem.map_free, h]

lemma Mem.map_alloc {T : Type} (m : Mem T) (nd : Node T) (b : Nat) :
    (m.alloc nd).1.map b = if b = m.nextAddr then some nd else m.map b := rfl

lemma Mem.alloc_nextAddr {T : Type} (m : Mem T) (nd : Node T) :
    (m.alloc nd).1.nextAddr = m.nextAddr + 1 := rfl

lemma Mem.alloc_addr {T : Type} (m : Mem T) (nd : Node T) :
    (m.alloc nd).2 = m.nextAddr := rfl

/-- Well-formed list: the header `l` together with the address chain `as`
carrying elements `es`; addresses are distinct and below the allocation
bound. -/
def ListRepr {T : Type} (m : Mem T) (l : LinkedList T) (as : List Nat) (es : List T) : Prop :=
  dlseg m none l.head as es none l.tail ∧ l.len = as.length ∧ as.Nodup ∧
    ∀ a ∈ as, a < m.nextAddr

/-- Cursor invariant: the borrowed list is well formed, and the cursor sits
either at the ghost (`cur` and `index` both absent) or at the `index`-th
node of the chain. -/
def CursorRepr {T : Type} (m : Mem T) (c : CursorMut T) (as : List Nat) (es : List T) : Prop :=
  ListRepr m c.list as es ∧
    ((c.cur = none ∧ c.index = none) ∨
      ∃ a i, c.cur = some a ∧ c.index = some i ∧ as[i]? = some a)

lemma push_front_repr {T : Type} {m : Mem T} {l : LinkedList T} {as : List Nat}
    {es : List T} (h : ListRepr m l as es) (v : T) :
    ∃ m' l', l.push_front m v = some (m', l') ∧
      ListRepr m' l' (m.nextAddr :: as) (v :: es) ∧ l'.len = l.len + 1 ∧
      m'.nextAddr = m.nextAddr + 1 := by
  obtain ⟨hseg, hlen, hnodup, hbound⟩ := h
  cases as with
  | nil =>
    rw [dlseg_nil_iff] at hseg
    obtain ⟨rfl, hhd, htl⟩ := hseg
    refine ⟨(m.alloc ⟨none, none, v⟩).1, ⟨some m.nextAddr, some m.nextAddr, l.len + 1⟩,
      ?_, ?_, rfl, rfl⟩
    · simp [LinkedList.push_front, hhd, Mem.alloc_addr]
    · refine ⟨?_, by simp [hlen], by simp, ?_⟩
      · rw [dlseg_cons_iff]
        refine ⟨⟨none, none, v⟩, [], ?_, rfl, rfl, rfl, ?_⟩
        · rw [Mem.map_alloc, if_pos rfl]
        · rw [dlseg_nil_iff]; exact ⟨rfl, rfl, rfl⟩
      · intro b hb
        simp at hb
        simp [hb, Mem.alloc_nextAddr]
  | cons a as' =>
    rw [dlseg_cons_iff] at hseg
    obtain ⟨nd, es', hnd, rfl, hx, hp, hrest⟩ := hseg
    have ha : a < m.nextAddr := hbound a (by simp)
    have hane : a ≠ m.nextAddr := Nat.ne_of_lt ha
    have h1 : (m.alloc ⟨none, none, v⟩).1.map a = some nd := by
      rw [Mem.map_alloc, if_neg hane, hnd]
    have h2 : ((m.alloc ⟨none, none, v⟩).1.write a { nd with prev := some m.nextAddr }).map
        m.nextAddr = some ⟨none, none, v⟩ := by
      rw [Mem.map_write_ne _ (Ne.symm hane), Mem.map_alloc, if_pos rfl]
    refine ⟨((m.alloc ⟨none, none, v⟩).1.write a { nd with prev := some m.nextAddr }).write
        m.nextAddr ⟨none, some a, v⟩,
      ⟨some m.nextAddr, l.tail, l.len + 1⟩, ?_, ?_, rfl, rfl⟩
    · simp [LinkedList.push_front, hx, Mem.alloc_addr, Mem.setPrev_eq h1, Mem.setNext_eq h2]
    · refine ⟨?_, by simp [hlen], ?_, ?_⟩
      · rw [dlseg_cons_iff]
        refine ⟨⟨none, some a, v⟩, nd.elem :: es', Mem.map_write_self _ _ _, rfl, rfl, rfl, ?_⟩
        rw [dlseg_cons_iff]
        refine ⟨{ nd with prev := some m.nextAddr }, es', ?_, rfl, rfl, rfl, ?_⟩
        · rw [Mem.map_write_ne _ hane, Mem.map_write_self]
        · refine dlseg.congr ?_ hrest
          intro b hb
          have hb1 : b ≠ a := by
            rintro rfl
            exact (List.nodup_cons.mp hnodup).1 hb
          have hb2 : b ≠ m.nextAddr := Nat.ne_of_lt (hbound b (by simp [hb]))
          rw [Mem.map_write_ne _ hb2, Mem.map_write_ne _ hb1, Mem.map_alloc, if_neg hb2]
      · refine List.nodup_cons.mpr ⟨?_, hnodup⟩
        intro hmem
        exact absurd (hbound _ hmem) (lt_irrefl _)
      · intro b hb
        rcases List.mem_cons.mp hb with rfl | hb'
        · simp [Mem.nextAddr_write, Mem.alloc_nextAddr]
        · have := hbound b hb'
          simp only [Mem.nextAddr_write, Mem.alloc_nextAddr]
          omega

lemma push_back_repr {T : Type} {m : Mem T} {l : LinkedList T} {as : List Nat}
    {es : List T} (h : ListRepr m l as es) (v : T) :
    ∃ m' l', l.push_back m v = some (m', l') ∧
      ListRepr m' l' (as ++ [m.nextAddr]) (es ++ [v]) ∧ l'.len = l.len + 1 ∧
      m'.nextAddr = m.nextAddr + 1 := by
  obtain ⟨hseg, hlen, hnodup, hbound⟩ := h
  rcases List.eq_nil_or_concat as with rfl | ⟨as₀, a, rfl⟩
  · rw [dlseg_nil_iff] at hseg
    obtain ⟨rfl, hhd, htl⟩ := hseg
    refine ⟨(m.alloc ⟨none, none, v⟩).1, ⟨some m.nextAddr, some m.nextAddr, l.len + 1⟩,
      ?_, ?_, rfl, rfl⟩
    · simp [LinkedList.push_back, htl.symm, Mem.alloc_addr]
    · refine ⟨?_, by simp [hlen], by simp, ?_⟩
      · rw [List.nil_append, dlseg_cons_iff]
        refine ⟨⟨none, none, v⟩, [], ?_, rfl, rfl, rfl, ?_⟩
        · rw [Mem.map_alloc, if_pos rfl]
        · rw [dlseg_nil_iff]; exact ⟨rfl, rfl, rfl⟩
      · intro b hb
        simp at hb
        simp [hb, Mem.alloc_nextAddr]
  · simp only [List.concat_eq_append] at hseg hlen hnodup hbound ⊢
    rw [dlseg_snoc_iff] at hseg
    obtain ⟨nd, es₀, hnd, rfl, hq, hy, hseg₀⟩ := hseg
    have ha : a < m.nextAddr := hbound a (by simp)
    have hane : a ≠ m.nextAddr := Nat.ne_of_lt ha
    have h1 : (m.alloc ⟨none, none, v⟩).1.map a = some nd := by
      rw [Mem.map_alloc, if_neg hane, hnd]
    have h2 : ((m.alloc ⟨none, none, v⟩).1.write a { nd with next := some m.nextAddr }).map
        m.nextAddr = some ⟨none, none, v⟩ := by
      rw [Mem.map_write_ne _ (Ne.symm hane), Mem.map_alloc, if_pos rfl]
    refine ⟨((m.alloc ⟨none, none, v⟩).1.write a { nd with next := some m.nextAddr }).write
        m.nextAddr ⟨some a, none, v⟩,
      ⟨l.head, some m.nextAddr, l.len + 1⟩, ?_, ?_, rfl, rfl⟩
    · simp [LinkedList.push_back, hq, Mem.alloc_addr, Mem.setNext_eq h1, Mem.setPrev_eq h2]
    · have hnodup₀ : as₀.Nodup ∧ a ∉ as₀ := by
        constructor
        · exact (List.nodup_append.mp hnodup).1
        · intro hmem
          exact (List.nodup_append.mp hnodup).2.2 hmem (by simp)
      refine ⟨?_, by simp [hlen], ?_, ?_⟩
      · rw [dlseg_snoc_iff]
        refine ⟨⟨some a, none, v⟩, es₀ ++ [nd.elem], Mem.map_write_self _ _ _, rfl, rfl,
          rfl, ?_⟩
        rw [dlseg_snoc_iff]
        refine ⟨{ nd with next := some m.nextAddr }, es₀, ?_, rfl, rfl, rfl, ?_⟩
        · rw [Mem.map_write_ne _ hane, Mem.map_write_self]
        · refine dlseg.congr ?_ hseg₀
          intro b hb
          have hb1 : b ≠ a := by
            rintro rfl
            exact hnodup₀.2 hb
          have hb2 : b ≠ m.nextAddr := Nat.ne_of_lt (hbound b (by simp [hb]))
          rw [Mem.map_write_ne _ hb2, Mem.map_write_ne _ hb1, Mem.map_alloc, if_neg hb2]
      · rw [List.nodup_append]
        refine ⟨hnodup, by simp, ?_⟩
        intro b hb hb'
        simp at hb'
        subst hb'
        exact absurd (hbound _ hb) (lt_irrefl _)
      · intro b hb
        rw [List.mem_append] at hb
        rcases hb with hb' | hb'
        · have := hbound b hb'
          simp only [Mem.nextAddr_write, Mem.alloc_nextAddr]
          omega
        · simp at hb'
          subst hb'
          simp [Mem.nextAddr_write, Mem.alloc_nextAddr]

lemma pop_front_repr_nil {T : Type} {m : Mem T} {l : LinkedList T} {es : List T}
    (h : ListRepr m l [] es) : l.pop_front m = some (m, l, none) := by
  obtain ⟨hseg, _, _, _⟩ := h
  rw [dlseg_nil_iff] at hseg
  simp [LinkedList.pop_front, hseg.2.1]

lemma pop_front_repr_cons {T : Type} {m : Mem T} {l : LinkedList T} {a : Nat}
    {as : List Nat} {e : T} {es : List T} (h : ListRepr m l (a :: as) (e :: es)) :
    ∃ m' l', l.pop_front m = some (m', l', some e) ∧ ListRepr m' l' as es ∧
      l'.len = l.len - 1 ∧ m'.nextAddr = m.nextAddr := by
  obtain ⟨hseg, hlen, hnodup, hbound⟩ := h
  rw [dlseg_cons_iff] at hseg
  obtain ⟨nd, es', hnd, hES, hx, hp, hrest⟩ := hseg
  obtain ⟨rfl, rfl⟩ : nd.elem = e ∧ es' = es := by
    rw [List.cons.injEq] at hES
    exact ⟨hES.1.symm, hES.2.symm⟩
  have hsub : checkedSub l.len 1 = some (l.len - 1) := by
    rw [checkedSub, if_pos]
    rw [hlen]
    simp
  cases as with
  | nil =>
    rw [dlseg_nil_iff] at hrest
    obtain ⟨rfl, hnxt, htl⟩ := hrest
    refine ⟨m.free a, ⟨none, none, l.len - 1⟩, ?_, ?_, rfl, rfl⟩
    · simp [LinkedList.pop_front, hx, hnd, hsub, hnxt]
    · refine ⟨?_, by simp [hlen], by simp, by simp⟩
      rw [dlseg_nil_iff]
      exact ⟨rfl, rfl, rfl⟩
  | cons b as' =>
    rw [dlseg_cons_iff] at hrest
    obtain ⟨nd2, es₂, hnd2, rfl, hnxt, hp2, hrest2⟩ := hrest
    have hba : b ≠ a := by
      rintro rfl
      exact (List.nodup_cons.mp hnodup).1 (by simp)
    refine ⟨(m.write b { nd2 with prev := none }).free a,
      ⟨some b, l.tail, l.len - 1⟩, ?_, ?_, rfl, rfl⟩
    · simp [LinkedList.pop_front, hx, hnd, hsub, hnxt, Mem.setPrev_eq hnd2]
    · refine ⟨?_, by simp [hlen], (List.nodup_cons.mp hnodup).2, ?_⟩
      · rw [dlseg_cons_iff]
        refine ⟨{ nd2 with prev := none }, es₂, ?_, rfl, rfl, rfl, ?_⟩
        · rw [Mem.map_free_ne _ hba, Mem.map_write_self]
        · refine dlseg.congr ?_ hrest2
          intro c hc
          have hnd' := List.nodup_cons.mp hnodup
          have hnd'' := List.nodup_cons.mp hnd'.2
          have hc1 : c ≠ a := by
            rintro rfl
            exact hnd'.1 (by simp [hc])
          have hc2 : c ≠ b := by
            rintro rfl
            exact hnd''.1 hc
          rw [Mem.map_free_ne _ hc1, Mem.map_write_ne _ hc2]
      · intro c hc
        have := hbound c (by simp [hc])
        simpa using this

lemma pop_back_repr_nil {T : Type} {m : Mem T} {l : LinkedList T} {es : List T}
    (h : ListRepr m l [] es) : l.pop_back m = some (m, l, none) := by
  obtain ⟨hseg, _, _, _⟩ := h
  rw [dlseg_nil_iff] at hseg
  simp [LinkedList.pop_back, hseg.2.2.symm]

lemma pop_back_repr_snoc {T : Type} {m : Mem T} {l : LinkedList T} {a : Nat}
    {as : List Nat} {e : T} {es : List T} (h : ListRepr m l (as ++ [a]) (es ++ [e])) :
    ∃ m' l', l.pop_back m = some (m', l', some e) ∧ ListRepr m' l' as es ∧
      l'.len = l.len - 1 ∧ m'.nextAddr = m.nextAddr := by
  obtain ⟨hseg, hlen, hnodup, hbound⟩ := h
  rw [dlseg_snoc_iff] at hseg
  obtain ⟨nd, es₀, hnd, hES, hq, hy, hseg₀⟩ := hseg
  obtain ⟨rfl, he⟩ := List.append_inj' hES rfl
  obtain rfl : e = nd.elem := by simpa using he
  have hsub : checkedSub l.len 1 = some (l.len - 1) := by
    rw [checkedSub, if_pos]
    rw [hlen]
    simp
  rcases List.eq_nil_or_concat as with rfl | ⟨as₀, b, rfl⟩
  · rw [dlseg_nil_iff] at hseg₀
    obtain ⟨rfl, hhd, hpv⟩ := hseg₀
    refine ⟨m.free a, ⟨none, none, l.len - 1⟩, ?_, ?_, rfl, rfl⟩
    · simp [LinkedList.pop_back, hq, hnd, hsub, hpv.symm]
    · refine ⟨?_, by simp [hlen], by simp, by simp⟩
      rw [dlseg_nil_iff]
      exact ⟨rfl, rfl, rfl⟩
  · simp only [List.concat_eq_append] at hseg₀ hlen hnodup hbound ⊢
    rw [dlseg_snoc_iff] at hseg₀
    obtain ⟨nd2, es₁, hnd2, rfl, hq2, hy2, hseg₁⟩ := hseg₀
    have hba : b ≠ a := by
      rintro rfl
      have hmem1 : b ∈ as₀ ++ [b] := by simp
      exact (List.nodup_append.mp hnodup).2.2 hmem1 (by simp)
    refine ⟨(m.write b { nd2 with next := none }).free a,
      ⟨l.head, some b, l.len - 1⟩, ?_, ?_, rfl, rfl⟩
    · simp [LinkedList.pop_back, hq, hnd, hsub, hq2, Mem.setNext_eq hnd2]
    · have hnodup' : (as₀ ++ [b]).Nodup := (List.nodup_append.mp hnodup).1
      refine ⟨?_, by simp [hlen], hnodup', ?_⟩
      · rw [dlseg_snoc_iff]
        refine ⟨{ nd2 with next := none }, es₁, ?_, rfl, rfl, rfl, ?_⟩
        · rw [Mem.map_free_ne _ hba, Mem.map_write_self]
        · refine dlseg.congr ?_ hseg₁
          intro c hc
          have hc1 : c ≠ a := by
            rintro rfl
            have hmem1 : c ∈ as₀ ++ [b] := by simp [hc]
            exact (List.nodup_append.mp hnodup).2.2 hmem1 (by simp)
          have hc2 : c ≠ b := by
            rintro rfl
            exact (List.nodup_append.mp hnodup').2.2 hc (by simp)
          rw [Mem.map_free_ne _ hc1, Mem.map_write_ne _ hc2]
      · intro c hc
        have := hbound c (List.mem_append.mpr (Or.inl hc))
        simpa using this

lemma clearLoop_repr {T : Type} :
    ∀ (as : List Nat) (es : List T) (m : Mem T) (l : LinkedList T),
      ListRepr m l as es →
      ∃ m' l', LinkedList.clearLoop m l as.length = some (m', l') ∧
        ListRepr m' l' [] [] ∧ m'.nextAddr = m.nextAddr := by
  intro as
  induction as with
  | nil =>
    intro es m l h
    have hpop := pop_front_repr_nil h
    have hes : es = [] := by
      have := h.1
      rw [dlseg_nil_iff] at this
      exact this.1
    subst hes
    exact ⟨m, l, by simp [LinkedList.clearLoop, hpop], h, rfl⟩
  | cons a as ih =>
    intro es m l h
    have hlen := h.1.length_eq
    cases es with
    | nil => simp at hlen
    | cons e es' =>
      obtain ⟨m1, l1, hpop, hrepr1, _, hA⟩ := pop_front_repr_cons h
      obtain ⟨m', l', hloop, hrepr', hA'⟩ := ih es' m1 l1 hrepr1
      exact ⟨m', l', by simp [LinkedList.clearLoop, hpop, hloop], hrepr', by rw [hA', hA]⟩

lemma clear_repr {T : Type} {m : Mem T} {l : LinkedList T} {as : List Nat}
    {es : List T} (h : ListRepr m l as es) :
    ∃ m' l', l.clear m = some (m', l') ∧ ListRepr m' l' [] [] ∧
      m'.nextAddr = m.nextAddr := by
  obtain ⟨m', l', hloop, hrepr', hA⟩ := clearLoop_repr as es m l h
  refine ⟨m', l', ?_, hrepr', hA⟩
  rw [LinkedList.clear, h.2.1, hloop]

/-- Follow `next` pointers `k` times from `x`; `none` when a step leaves the
allocated chain. -/
def iterNextN {T : Type} (m : Mem T) : Nat → Option Nat → Option (Option Nat)
  | 0, x => some x
  | k + 1, x =>
    match x with
    | none => none
    | some a =>
      match m.map a with
      | none => none
      | some nd => iterNextN m k nd.next

/-- Follow `prev` pointers `k` times from `x`. -/
def iterPrevN {T : Type} (m : Mem T) : Nat → Option Nat → Option (Option Nat)
  | 0, x => some x
  | k + 1, x =>
    match x with
    | none => none
    | some a =>
      match m.map a with
      | none => none
      | some nd => iterPrevN m k nd.prev

lemma dlseg.iterNextN_eq {T : Type} {m : Mem T} {p x y q : Option Nat}
    {as : List Nat} {es : List T} (h : dlseg m p x as es y q) :
    iterNextN m as.length x = some y := by
  induction as generalizing p x es with
  | nil =>
    rw [dlseg_nil_iff] at h
    simp [iterNextN, h.2.1]
  | cons a as ih =>
    rw [dlseg_cons_iff] at h
    obtain ⟨nd, es', hnd, rfl, hx, hp, hrest⟩ := h
    simp [iterNextN, hx, hnd, ih hrest]

lemma dlseg.iterPrevN_eq {T : Type} {m : Mem T} {p x y q : Option Nat}
    {as : List Nat} {es : List T} (h : dlseg m p x as es y q) :
    iterPrevN m as.length q = some p := by
  induction as using List.reverseRecOn generalizing y q es with
  | nil =>
    rw [dlseg_nil_iff] at h
    simp [iterPrevN, h.2.2.symm]
  | append_singleton as a ih =>
    rw [dlseg_snoc_iff] at h
    obtain ⟨nd, es', hnd, rfl, hq, hy, hseg⟩ := h
    simp [iterPrevN, hq, hnd, ih hseg]

lemma ListRepr.head_none_iff {T : Type} {m : Mem T} {l : LinkedList T}
    {as : List Nat} {es : List T} (h : ListRepr m l as es) :
    l.len = 0 ↔ l.head = none := by
  obtain ⟨hseg, hlen, _, _⟩ := h
  cases as with
  | nil =>
    rw [dlseg_nil_iff] at hseg
    simp [hlen, hseg.2.1]
  | cons a as' =>
    rw [dlseg_cons_iff] at hseg
    obtain ⟨nd, es', _, _, hx, _, _⟩ := hseg
    simp [hlen, hx]

lemma ListRepr.tail_none_iff {T : Type} {m : Mem T} {l : LinkedList T}
    {as : List Nat} {es : List T} (h : ListRepr m l as es) :
    l.len = 0 ↔ l.tail = none := by
  obtain ⟨hseg, hlen, _, _⟩ := h
  rcases List.eq_nil_or_concat as with rfl | ⟨as₀, a, rfl⟩
  · rw [dlseg_nil_iff] at hseg
    simp [hlen, hseg.2.2.symm]
  · simp only [List.concat_eq_append] at hseg hlen
    rw [dlseg_snoc_iff] at hseg
    obtain ⟨nd, es', _, _, hq, _, _⟩ := hseg
    simp [hlen, hq]

lemma ListRepr.len_one_iff {T : Type} {m : Mem T} {l : LinkedList T}
    {as : List Nat} {es : List T} (h : ListRepr m l as es) :
    l.len = 1 ↔ (l.head ≠ none ∧ l.head = l.tail) := by
  obtain ⟨hseg, hlen, hnodup, _⟩ := h
  cases as with
  | nil =>
    rw [dlseg_nil_iff] at hseg
    simp [hlen, hseg.2.1]
  | cons a as' =>
    rcases List.eq_nil_or_concat as' with rfl | ⟨as₀, b, rfl⟩
    · rw [dlseg_singleton_iff] at hseg
      obtain ⟨nd, _, _, hx, hq, _, _⟩ := hseg
      simp [hlen, hx, hq]
    · simp only [List.concat_eq_append] at hseg hlen hnodup
      rw [dlseg_cons_iff] at hseg
      obtain ⟨nd, es', _, _, hx, _, hrest⟩ := hseg
      rw [dlseg_snoc_iff] at hrest
      obtain ⟨nd2, es₂, _, _, hq, _, _⟩ := hrest
      constructor
      · intro h1
        rw [hlen] at h1
        simp at h1
      · intro ⟨_, hht⟩
        rw [hx, hq] at hht
        obtain rfl : a = b := by simpa using hht
        rw [List.nodup_cons] at hnodup
        exact absurd (by simp : a ∈ as₀ ++ [a]) hnodup.1

lemma dlseg.get {T : Type} {m : Mem T} {p x y q : Option Nat} {as : List Nat}
    {es : List T} (h : dlseg m p x as es y q) :
    ∀ i a, as[i]? = some a →
      ∃ nd, m.map a = some nd ∧ es[i]? = some nd.elem ∧
        nd.next = (if i + 1 < as.length then as[i + 1]? else y) ∧
        nd.prev = (if i = 0 then p else as[i - 1]?) := by
  induction as generalizing p x es with
  | nil => intro i a hi; simp at hi
  | cons b as ih =>
    intro i a hi
    rw [dlseg_cons_iff] at h
    obtain ⟨nd, es', hnd, rfl, hx, hp, hrest⟩ := h
    cases i with
    | zero =>
      obtain rfl : b = a := by simpa using hi
      refine ⟨nd, hnd, by simp, ?_, by simp [hp]⟩
      cases as with
      | nil =>
        rw [dlseg_nil_iff] at hrest
        simp [hrest.2.1]
      | cons c cs =>
        rw [dlseg_cons_iff] at hrest
        obtain ⟨nd2, es₂, _, _, hx2, _, _⟩ := hrest
        simp [hx2]
    | succ j =>
      rw [List.getElem?_cons_succ] at hi
      obtain ⟨nd', hnd', hel, hnx, hpv⟩ := ih hrest j a hi
      refine ⟨nd', hnd', by simpa using hel, ?_, ?_⟩
      · rw [hnx, List.length_cons]
        by_cases hj : j + 1 < as.length
        · rw [if_pos hj, if_pos (by omega), List.getElem?_cons_succ]
        · rw [if_neg hj, if_neg (by omega)]
      · rw [if_neg (Nat.succ_ne_zero j)]
        cases j with
        | zero =>
          rw [hpv]
          simp
        | succ k =>
          rw [hpv, if_neg (Nat.succ_ne_zero k)]
          simp

lemma ListRepr.head_eq {T : Type} {m : Mem T} {l : LinkedList T} {as : List Nat}
    {es : List T} (h : ListRepr m l as es) : l.head = as[0]? := by
  cases as with
  | nil =>
    have := h.1
    rw [dlseg_nil_iff] at this
    simp [this.2.1]
  | cons a as' =>
    have := h.1
    rw [dlseg_cons_iff] at this
    obtain ⟨nd, es', _, _, hx, _, _⟩ := this
    simp [hx]

lemma ListRepr.tail_eq {T : Type} {m : Mem T} {l : LinkedList T} {as : List Nat}
    {es : List T} (h : ListRepr m l as es) : l.tail = as[as.length - 1]? := by
  rcases List.eq_nil_or_concat as with rfl | ⟨as₀, b, rfl⟩
  · have := h.1
    rw [dlseg_nil_iff] at this
    simp [this.2.2.symm]
  · simp only [List.concat_eq_append]
    have hs := h.1
    rw [List.concat_eq_append, dlseg_snoc_iff] at hs
    obtain ⟨nd, es', _, _, hq, _, _⟩ := hs
    rw [hq, List.length_append]
    simp [List.getElem?_concat_length]

lemma move_next_spec {T : Type} {m : Mem T} {c : CursorMut T} {as : List Nat}
    {es : List T} (h : CursorRepr m c as es) :
    ∃ c', c.move_next m = some c' ∧ c'.list = c.list ∧
      ((c.cur = none ∧ as = [] ∧ c' = c) ∨
       (c.cur = none ∧ as ≠ [] ∧ c'.cur = as[0]? ∧ c'.index = some 0) ∨
       (∃ a i, c.cur = some a ∧ c.index = some i ∧
         c'.cur = as[i + 1]? ∧
         c'.index = (if i + 1 < as.length then some (i + 1) else none))) ∧
      CursorRepr m c' as es := by
  obtain ⟨hlist, hcur⟩ := h
  rcases hcur with ⟨hg, hgi⟩ | ⟨a, i, hc, hi, hia⟩
  · cases as with
    | nil =>
      have hlen : c.list.len = 0 := by simpa using hlist.2.1
      refine ⟨c, ?_, rfl, Or.inl ⟨hg, rfl, rfl⟩, hlist, Or.inl ⟨hg, hgi⟩⟩
      simp [CursorMut.move_next, hg, hlen]
    | cons a₀ as' =>
      have hlen : c.list.len ≠ 0 := by
        rw [hlist.2.1]
        simp
      have hhd : c.list.head = some a₀ := by
        have := hlist.1
        rw [dlseg_cons_iff] at this
        exact this.choose_spec.choose_spec.2.2.1
      refine ⟨{ c with cur := c.list.head, index := some 0 }, ?_, rfl,
        Or.inr (Or.inl ⟨hg, by simp, by simp [hhd], rfl⟩), hlist,
        Or.inr ⟨a₀, 0, by simp [hhd], rfl, by simp⟩⟩
      simp [CursorMut.move_next, hg, hlen]
  · obtain ⟨nd, hnd, hel, hnx, hpv⟩ := hlist.1.get i a hia
    have hilen : i < as.length := (List.getElem?_eq_some.mp hia).1
    by_cases hlast : i + 1 < as.length
    · rw [if_pos hlast] at hnx
      obtain ⟨s, hs⟩ : ∃ s, as[i + 1]? = some s := ⟨_, List.getElem?_eq_getElem hlast⟩
      refine ⟨{ c with cur := some s, index := some (i + 1) }, ?_, rfl,
        Or.inr (Or.inr ⟨a, i, hc, hi, by simp [hs], by simp [hlast]⟩), hlist,
        Or.inr ⟨s, i + 1, rfl, rfl, hs⟩⟩
      simp [CursorMut.move_next, hc, hnd, hnx, hs, hi]
    · rw [if_neg hlast] at hnx
      have hnone : as[i + 1]? = none := by
        rw [List.getElem?_eq_none_iff]
        omega
      refine ⟨{ c with cur := none, index := none }, ?_, rfl,
        Or.inr (Or.inr ⟨a, i, hc, hi, by simp [hnone], by simp [hlast]⟩), hlist,
        Or.inl ⟨rfl, rfl⟩⟩
      simp [CursorMut.move_next, hc, hnd, hnx]

lemma move_prev_spec {T : Type} {m : Mem T} {c : CursorMut T} {as : List Nat}
    {es : List T} (h : CursorRepr m c as es) :
    ∃ c', c.move_prev m = some c' ∧ c'.list = c.list ∧
      ((c.cur = none ∧ as = [] ∧ c' = c) ∨
       (c.cur = none ∧ as ≠ [] ∧ c'.cur = as[as.length - 1]? ∧
         c'.index = some (as.length - 1)) ∨
       (∃ a i, c.cur = some a ∧ c.index = some i ∧
         c'.cur = (if i = 0 then none else as[i - 1]?) ∧
         c'.index = (if i = 0 then none else some (i - 1)))) ∧
      CursorRepr m c' as es := by
  obtain ⟨hlist, hcur⟩ := h
  rcases hcur with ⟨hg, hgi⟩ | ⟨a, i, hc, hi, hia⟩
  · cases as with
    | nil =>
      have hlen : c.list.len = 0 := by simpa using hlist.2.1
      refine ⟨c, ?_, rfl, Or.inl ⟨hg, rfl, rfl⟩, hlist, Or.inl ⟨hg, hgi⟩⟩
      simp [CursorMut.move_prev, hg, hlen]
    | cons a₀ as' =>
      have hlen : c.list.len ≠ 0 := by
        rw [hlist.2.1]
        simp
      have htl : c.list.tail = (a₀ :: as')[(a₀ :: as').length - 1]? :=
        ListRepr.tail_eq hlist
      obtain ⟨at₀, hq⟩ : ∃ at₀, c.list.tail = some at₀ := by
        rw [htl]
        exact ⟨_, List.getElem?_eq_getElem (by simp)⟩
      have hsub : checkedSub c.list.len 1 = some (c.list.len - 1) := by
        rw [checkedSub, if_pos (by omega)]
      refine ⟨{ c with cur := c.list.tail, index := some (c.list.len - 1) }, ?_, rfl,
        Or.inr (Or.inl ⟨hg, by simp, by simpa using htl, by simp [hlist.2.1]⟩), hlist,
        Or.inr ⟨at₀, (a₀ :: as').length - 1, by simp [hq], by simp [hlist.2.1], ?_⟩⟩
      · simp [CursorMut.move_prev, hg, hlen, hsub]
      · rw [← htl]
        exact hq
  · obtain ⟨nd, hnd, hel, hnx, hpv⟩ := hlist.1.get i a hia
    have hilen : i < as.length := (List.getElem?_eq_some.mp hia).1
    by_cases hzero : i = 0
    · subst hzero
      rw [if_pos rfl] at hpv
      refine ⟨{ c with cur := none, index := none }, ?_, rfl,
        Or.inr (Or.inr ⟨a, 0, hc, hi, by simp, by simp⟩), hlist, Or.inl ⟨rfl, rfl⟩⟩
      simp [CursorMut.move_prev, hc, hnd, hpv]
    · rw [if_neg hzero] at hpv
      obtain ⟨pa, hpa⟩ : ∃ pa, as[i - 1]? = some pa :=
        ⟨_, List.getElem?_eq_getElem (by omega)⟩
      have hsub : checkedSub i 1 = some (i - 1) := by
        rw [checkedSub, if_pos (by omega)]
      refine ⟨{ c with cur := some pa, index := some (i - 1) }, ?_, rfl,
        Or.inr (Or.inr ⟨a, i, hc, hi, by simp [hzero, hpa], by simp [hzero]⟩), hlist,
        Or.inr ⟨pa, i - 1, rfl, rfl, hpa⟩⟩
      simp [CursorMut.move_prev, hc, hnd, hpv, hpa, hi, hsub]

lemma dlseg.split_at {T : Type} {m : Mem T} {p x y q : Option Nat} {as : List Nat}
    {es : List T} (h : dlseg m p x as es y q) {i : Nat} {a : Nat}
    (hia : as[i]? = some a) :
    ∃ nd, m.map a = some nd ∧ es[i]? = some nd.elem ∧
      dlseg m p x (as.take i) (es.take i) (some a) nd.prev ∧
      dlseg m (some a) nd.next (as.drop (i + 1)) (es.drop (i + 1)) y q := by
  have hilen : i < as.length := (List.getElem?_eq_some.mp hia).1
  have hae : as[i] = a := (List.getElem?_eq_some.mp hia).2
  have hdecomp : as = as.take i ++ a :: as.drop (i + 1) := by
    conv_lhs => rw [← List.take_append_drop i as]
    rw [List.drop_eq_getElem_cons hilen, hae]
  rw [hdecomp] at h
  obtain ⟨es₁, es₂, z, w, hes, hlen₁, hseg₁, hseg₂⟩ := h.split
  rw [dlseg_cons_iff] at hseg₂
  obtain ⟨nd, es₃, hnd, rfl, hz, hp2, hrest⟩ := hseg₂
  rw [List.length_take] at hlen₁
  have hlen₁' : es₁.length = i := by
    rw [hlen₁]
    omega
  have htake : es.take i = es₁ := by
    rw [hes, List.take_left']
    exact hlen₁'
  have hdrop : es.drop (i + 1) = es₃ := by
    rw [hes, show es₁ ++ nd.elem :: es₃ = (es₁ ++ [nd.elem]) ++ es₃ by simp,
      List.drop_left']
    simp [hlen₁']
  have hget : es[i]? = some nd.elem := by
    rw [hes, List.getElem?_append_right (by omega), hlen₁']
    simp
  obtain rfl : z = some a := hz
  rw [← hp2] at hseg₁
  exact ⟨nd, hnd, hget, htake ▸ hseg₁, hdrop ▸ hrest⟩

lemma mem_of_getElem_some {α : Type} {l : List α} {n : Nat} {a : α}
    (h : l[n]? = some a) : a ∈ l := by
  obtain ⟨hlt, rfl⟩ := List.getElem?_eq_some.mp h
  exact List.getElem_mem hlt

lemma split_after_ghost_spec {T : Type} {m : Mem T} {c : CursorMut T} {as : List Nat}
    {es : List T} (h : CursorRepr m c as es) (hc : c.cur = none) :
    c.split_after m = some (m, { c with list := LinkedList.new }, c.list) ∧
      CursorRepr m { c with list := LinkedList.new } ([] : List Nat) ([] : List T) ∧
      ListRepr m c.list as es := by
  have hgi : c.index = none := by
    rcases h.2 with ⟨_, hgi⟩ | ⟨a, i, hc', _, _⟩
    · exact hgi
    · rw [hc] at hc'
      exact absurd hc' (by simp)
  refine ⟨by simp [CursorMut.split_after, hc], ⟨?_, Or.inl ⟨hc, hgi⟩⟩, h.1⟩
  refine ⟨?_, rfl, by simp, by simp⟩
  rw [dlseg_nil_iff]
  exact ⟨rfl, rfl, rfl⟩

lemma split_after_at_spec {T : Type} {m : Mem T} {c : CursorMut T} {as : List Nat}
    {es : List T} {a i : Nat} (h : CursorRepr m c as es)
    (hc : c.cur = some a) (hi : c.index = some i) :
    ∃ m' c' r, c.split_after m = some (m', c', r) ∧
      c'.cur = some a ∧ c'.index = some i ∧
      CursorRepr m' c' (as.take (i + 1)) (es.take (i + 1)) ∧
      ListRepr m' r (as.drop (i + 1)) (es.drop (i + 1)) ∧
      c'.list.len = i + 1 ∧ r.len = as.length - (i + 1) ∧
      m'.nextAddr = m.nextAddr := by
  obtain ⟨hlist, hcur⟩ := h
  obtain ⟨hseg, hlen, hnodup, hbound⟩ := hlist
  have hia : as[i]? = some a := by
    rcases hcur with ⟨hg, _⟩ | ⟨a', i', hc', hi', hia'⟩
    · rw [hc] at hg
      exact absurd hg (by simp)
    · rw [hc] at hc'
      rw [hi] at hi'
      obtain rfl : a' = a := by simpa using hc'.symm
      obtain rfl : i' = i := by simpa using hi'.symm
      exact hia'
  have hilen : i < as.length := (List.getElem?_eq_some.mp hia).1
  obtain ⟨nd, hnd, hel, hseg₁, hseg₂⟩ := hseg.split_at hia
  have hsub1 : checkedSub c.list.len i = some (c.list.len - i) := by
    rw [checkedSub, if_pos (by omega)]
  have hsub2 : checkedSub (c.list.len - i) 1 = some (c.list.len - i - 1) := by
    rw [checkedSub, if_pos (by omega)]
  have htake : as.take (i + 1) = as.take i ++ [a] := by
    simp [List.take_succ, hia]
  have hetake : es.take (i + 1) = es.take i ++ [nd.elem] := by
    simp [List.take_succ, hel]
  have hlentake : (as.take (i + 1)).length = i + 1 := by
    rw [List.length_take]
    omega
  have hndtake : (as.take (i + 1)).Nodup := hnodup.sublist (List.take_sublist _ _)
  have hnddrop : (as.drop (i + 1)).Nodup := hnodup.sublist (List.drop_sublist _ _)
  have hdisj : (as.take (i + 1)).Disjoint (as.drop (i + 1)) :=
    List.disjoint_take_drop hnodup le_rfl
  have ha_take : a ∈ as.take (i + 1) := by
    rw [htake]
    simp
  have ha_not_take : a ∉ as.take i := by
    rw [htake] at hndtake
    intro hmem
    exact (List.nodup_append.mp hndtake).2.2 hmem (by simp)
  have htake_sub : ∀ cc ∈ as.take i, cc ∈ as.take (i + 1) := by
    intro cc hcc
    rw [htake]
    exact List.mem_append_left _ hcc
  have hcurtake : (as.take (i + 1))[i]? = some a := by
    rw [List.getElem?_take, if_pos (by omega)]
    exact hia
  cases hD : as.drop (i + 1) with
  | nil =>
    rw [hD, dlseg_nil_iff] at hseg₂
    obtain ⟨heD, hnxt, htl⟩ := hseg₂
    have hlenle : as.length ≤ i + 1 := by
      have hld := List.length_drop (i + 1) as
      rw [hD] at hld
      simp at hld
      omega
    have hlenEq : as.length = i + 1 := by omega
    have htakeall : as.take (i + 1) = as := List.take_of_length_le hlenle
    have hetakeall : es.take (i + 1) = es :=
      List.take_of_length_le (by rw [hseg.length_eq]; exact hlenle)
    rw [← htl] at hseg
    refine ⟨m, ⟨some a, ⟨c.list.head, some a, i + 1⟩, c.index⟩,
      ⟨none, none, c.list.len - i - 1⟩, ?_, rfl, hi, ?_, ?_, rfl, ?_, rfl⟩
    · simp [CursorMut.split_after, hc, hnd, hi, hsub1, hsub2, hnxt]
    · rw [htakeall, hetakeall]
      exact ⟨⟨hseg, hlenEq.symm, hnodup, hbound⟩, Or.inr ⟨a, i, rfl, hi, hia⟩⟩
    · rw [heD]
      refine ⟨?_, by simp; omega, by simp, by simp⟩
      rw [dlseg_nil_iff]
      exact ⟨rfl, rfl, rfl⟩
    · simp
      omega
  | cons b rest =>
    rw [hD, dlseg_cons_iff] at hseg₂
    obtain ⟨nd2, es₃, hnd2, heD, hnxt, hp2, hrest₂⟩ := hseg₂
    have hb_drop : b ∈ as.drop (i + 1) := by rw [hD]; simp
    have haneb : a ≠ b := fun heq => hdisj ha_take (heq ▸ hb_drop)
    have hmBa : (m.write b { nd2 with prev := none }).map a = some nd := by
      rw [Mem.map_write_ne _ haneb, hnd]
    have hlend : (b :: rest).length = as.length - (i + 1) := by
      have hld := List.length_drop (i + 1) as
      rw [hD] at hld
      omega
    refine ⟨(m.write b { nd2 with prev := none }).write a { nd with next := none },
      ⟨some a, ⟨c.list.head, some a, i + 1⟩, c.index⟩,
      ⟨some b, c.list.tail, c.list.len - i - 1⟩, ?_, rfl, hi, ?_, ?_, rfl, ?_, rfl⟩
    · simp [CursorMut.split_after, hc, hnd, hnxt, Mem.setPrev_eq hnd2,
        Mem.setNext_eq hmBa, hi, hsub1, hsub2]
    · refine ⟨⟨?_, by rw [hlentake], hndtake, ?_⟩, Or.inr ⟨a, i, rfl, hi, hcurtake⟩⟩
      · rw [htake, hetake, dlseg_snoc_iff]
        refine ⟨{ nd with next := none }, es.take i, Mem.map_write_self _ _ _, rfl,
          rfl, rfl, ?_⟩
        refine dlseg.congr ?_ hseg₁
        intro cc hcc
        have hcc1 : cc ≠ a := fun heq => ha_not_take (heq ▸ hcc)
        have hcc2 : cc ≠ b := fun heq => hdisj (htake_sub cc hcc) (heq ▸ hb_drop)
        rw [Mem.map_write_ne _ hcc1, Mem.map_write_ne _ hcc2]
      · intro cc hcc
        exact hbound cc (List.take_subset _ _ hcc)
    · rw [heD]
      refine ⟨?_, by simp only [List.length_cons] at hlend ⊢; omega, ?_, ?_⟩
      · rw [dlseg_cons_iff]
        refine ⟨{ nd2 with prev := none }, es₃, ?_, rfl, rfl, rfl, ?_⟩
        · rw [Mem.map_write_ne _ (Ne.symm haneb), Mem.map_write_self]
        · refine dlseg.congr ?_ hrest₂
          intro cc hcc
          have hcc_drop : cc ∈ as.drop (i + 1) := by rw [hD]; simp [hcc]
          have hcc1 : cc ≠ a := by
            rintro rfl
            exact hdisj ha_take hcc_drop
          have hcc2 : cc ≠ b := by
            rintro rfl
            rw [hD, List.nodup_cons] at hnddrop
            exact hnddrop.1 hcc
          rw [Mem.map_write_ne _ hcc1, Mem.map_write_ne _ hcc2]
      · rw [← hD]
        exact hnddrop
      · intro cc hcc
        have : cc ∈ as.drop (i + 1) := by rw [hD]; exact hcc
        exact hbound cc (List.drop_subset _ _ this)
    · show c.list.len - i - 1 = as.length - (i + 1)
      omega

lemma split_before_ghost_spec {T : Type} {m : Mem T} {c : CursorMut T} {as : List Nat}
    {es : List T} (h : CursorRepr m c as es) (hc : c.cur = none) :
    c.split_before m = some (m, { c with list := LinkedList.new }, c.list) ∧
      CursorRepr m { c with list := LinkedList.new } ([] : List Nat) ([] : List T) ∧
      ListRepr m c.list as es := by
  have hgi : c.index = none := by
    rcases h.2 with ⟨_, hgi⟩ | ⟨a, i, hc', _, _⟩
    · exact hgi
    · rw [hc] at hc'
      exact absurd hc' (by simp)
  refine ⟨by simp [CursorMut.split_before, hc], ⟨?_, Or.inl ⟨hc, hgi⟩⟩, h.1⟩
  refine ⟨?_, rfl, by simp, by simp⟩
  rw [dlseg_nil_iff]
  exact ⟨rfl, rfl, rfl⟩

lemma split_before_at_spec {T : Type} {m : Mem T} {c : CursorMut T} {as : List Nat}
    {es : List T} {a i : Nat} (h : CursorRepr m c as es)
    (hc : c.cur = some a) (hi : c.index = some i) :
    ∃ m' c' r, c.split_before m = some (m', c', r) ∧
      c'.cur = some a ∧ c'.index = some 0 ∧
      CursorRepr m' c' (as.drop i) (es.drop i) ∧
      ListRepr m' r (as.take i) (es.take i) ∧
      c'.list.len = as.length - i ∧ r.len = i ∧
      m'.nextAddr = m.nextAddr := by
  obtain ⟨hlist, hcur⟩ := h
  obtain ⟨hseg, hlen, hnodup, hbound⟩ := hlist
  have hia : as[i]? = some a := by
    rcases hcur with ⟨hg, _⟩ | ⟨a', i', hc', hi', hia'⟩
    · rw [hc] at hg
      exact absurd hg (by simp)
    · rw [hc] at hc'
      rw [hi] at hi'
      obtain rfl : a' = a := by simpa using hc'.symm
      obtain rfl : i' = i := by simpa using hi'.symm
      exact hia'
  have hilen : i < as.length := (List.getElem?_eq_some.mp hia).1
  have hielen : i < es.length := by
    rw [hseg.length_eq]
    exact hilen
  obtain ⟨nd, hnd, hel, hseg₁, hseg₂⟩ := hseg.split_at hia
  have hsubi : checkedSub c.list.len i = some (c.list.len - i) := by
    rw [checkedSub, if_pos (by omega)]
  have hndtake : (as.take i).Nodup := hnodup.sublist (List.take_sublist _ _)
  have hnddropi : (as.drop i).Nodup := hnodup.sublist (List.drop_sublist _ _)
  have hdisj : (as.take i).Disjoint (as.drop i) := List.disjoint_take_drop hnodup le_rfl
  have hdropi : as.drop i = a :: as.drop (i + 1) := by
    rw [List.drop_eq_getElem_cons hilen, (List.getElem?_eq_some.mp hia).2]
  have hedropi : es.drop i = nd.elem :: es.drop (i + 1) := by
    rw [List.drop_eq_getElem_cons hielen, (List.getElem?_eq_some.mp hel).2]
  have ha_drop : a ∈ as.drop i := by rw [hdropi]; simp
  have hlentake : (as.take i).length = i := by
    rw [List.length_take]
    omega
  have hlendrop : (as.drop i).length = as.length - i := List.length_drop i as
  cases hi0 : i with
  | zero =>
    subst hi0
    rw [List.take_zero, dlseg_nil_iff] at hseg₁
    obtain ⟨heT, hhd, hp0⟩ := hseg₁
    rw [hhd] at hseg
    refine ⟨m, ⟨some a, ⟨some a, c.list.tail, c.list.len - 0⟩, some 0⟩,
      ⟨none, none, 0⟩, ?_, rfl, rfl, ?_, ?_, by simp [hlen], rfl, rfl⟩
    · simp [CursorMut.split_before, hc, hnd, hi, hsubi, hp0.symm]
    · rw [List.drop_zero, List.drop_zero]
      refine ⟨⟨hseg, by simp [hlen], hnodup, hbound⟩, Or.inr ⟨a, 0, rfl, rfl, ?_⟩⟩
      simpa using hia
    · refine ⟨?_, by simp, by simp, by simp⟩
      rw [List.take_zero, List.take_zero, dlseg_nil_iff]
      exact ⟨rfl, rfl, rfl⟩
  | succ j =>
    subst hi0
    rcases List.eq_nil_or_concat (as.take (j + 1)) with habs | ⟨as₀, p, hcat⟩
    · rw [habs] at hlentake
      simp at hlentake
    rw [List.concat_eq_append] at hcat
    rw [hcat, dlseg_snoc_iff] at hseg₁
    obtain ⟨ndp, es₀, hndp, heT, hqp, hyp, hseg₀⟩ := hseg₁
    have hp_take : p ∈ as.take (j + 1) := by rw [hcat]; simp
    have ha_not_take : a ∉ as.take (j + 1) := fun hmem => hdisj hmem ha_drop
    have hpnea : p ≠ a := by
      rintro rfl
      exact ha_not_take hp_take
    have hmPa : (m.write p { ndp with next := none }).map a = some nd := by
      rw [Mem.map_write_ne _ (Ne.symm hpnea), hnd]
    refine ⟨(m.write p { ndp with next := none }).write a { nd with prev := none },
      ⟨some a, ⟨some a, c.list.tail, c.list.len - (j + 1)⟩, some 0⟩,
      ⟨c.list.head, some p, j + 1⟩, ?_, rfl, rfl, ?_, ?_, by simp [hlen], rfl, rfl⟩
    · simp [CursorMut.split_before, hc, hnd, hqp, Mem.setNext_eq hndp,
        Mem.setPrev_eq hmPa, hi, hsubi]
    · rw [hdropi, hedropi]
      refine ⟨⟨?_, ?_, by rw [← hdropi]; exact hnddropi, ?_⟩,
        Or.inr ⟨a, 0, rfl, rfl, by simp⟩⟩
      · rw [dlseg_cons_iff]
        refine ⟨{ nd with prev := none }, es.drop (j + 2), ?_, rfl, rfl, rfl, ?_⟩
        · rw [Mem.map_write_self]
        · refine dlseg.congr ?_ hseg₂
          intro cc hcc
          have hcc_drop : cc ∈ as.drop (j + 1) := by rw [hdropi]; simp [hcc]
          have hcc1 : cc ≠ a := by
            rintro rfl
            rw [hdropi, List.nodup_cons] at hnddropi
            exact hnddropi.1 hcc
          have hcc2 : cc ≠ p := by
            rintro rfl
            exact hdisj hp_take hcc_drop
          rw [Mem.map_write_ne _ hcc1, Mem.map_write_ne _ hcc2]
      · show c.list.len - (j + 1) = (a :: as.drop (j + 2)).length
        rw [← hdropi, hlendrop, hlen]
      · intro cc hcc
        rw [← hdropi] at hcc
        exact hbound cc (List.drop_subset _ _ hcc)
    · refine ⟨?_, by rw [hlentake], hndtake, ?_⟩
      · rw [hcat, heT, dlseg_snoc_iff]
        refine ⟨{ ndp with next := none }, es₀, ?_, rfl, rfl, rfl, ?_⟩
        · rw [Mem.map_write_ne _ hpnea, Mem.map_write_self]
        · refine dlseg.congr ?_ hseg₀
          intro cc hcc
          have hcc_take : cc ∈ as.take (j + 1) := by rw [hcat]; simp [hcc]
          have hcc1 : cc ≠ a := by
            rintro rfl
            exact ha_not_take hcc_take
          have hcc2 : cc ≠ p := by
            rintro rfl
            rw [hcat] at hndtake
            exact (List.nodup_append.mp hndtake).2.2 hcc (by simp)
          rw [Mem.map_write_ne _ hcc1, Mem.map_write_ne _ hcc2]
      · intro cc hcc
        exact hbound cc (List.take_subset _ _ hcc)

lemma dlseg.setPrev_head {T : Type} {m : Mem T} {p x y q : Option Nat} {b₀ : Nat}
    {bs : List Nat} {fs : List T} (h : dlseg m p x (b₀ :: bs) fs y q)
    (hnd : b₀ ∉ bs) (p' : Option Nat) :
    ∃ m', m.setPrev b₀ p' = some m' ∧ dlseg m' p' x (b₀ :: bs) fs y q ∧
      (∀ b, b ≠ b₀ → m'.map b = m.map b) ∧ m'.nextAddr = m.nextAddr := by
  rw [dlseg_cons_iff] at h
  obtain ⟨nd₀, fs', hnd₀, rfl, hx, hp, hrest⟩ := h
  refine ⟨m.write b₀ { nd₀ with prev := p' }, Mem.setPrev_eq hnd₀ p', ?_, ?_, rfl⟩
  · rw [dlseg_cons_iff]
    refine ⟨{ nd₀ with prev := p' }, fs', Mem.map_write_self _ _ _, rfl, hx, rfl, ?_⟩
    refine dlseg.congr ?_ hrest
    intro cc hcc
    have : cc ≠ b₀ := by
      rintro rfl
      exact hnd hcc
    rw [Mem.map_write_ne _ this]
  · intro b hb
    rw [Mem.map_write_ne _ hb]

lemma dlseg.setNext_last {T : Type} {m : Mem T} {p x y : Option Nat} {bt : Nat}
    {bs : List Nat} {fs : List T} (h : dlseg m p x (bs ++ [bt]) fs y (some bt))
    (hnd : bt ∉ bs) (y' : Option Nat) :
    ∃ m', m.setNext bt y' = some m' ∧ dlseg m' p x (bs ++ [bt]) fs y' (some bt) ∧
      (∀ b, b ≠ bt → m'.map b = m.map b) ∧ m'.nextAddr = m.nextAddr := by
  rw [dlseg_snoc_iff] at h
  obtain ⟨ndt, fs₀, hndt, rfl, _, hy, hseg₀⟩ := h
  refine ⟨m.write bt { ndt with next := y' }, Mem.setNext_eq hndt y', ?_, ?_, rfl⟩
  · rw [dlseg_snoc_iff]
    refine ⟨{ ndt with next := y' }, fs₀, Mem.map_write_self _ _ _, rfl, rfl, rfl, ?_⟩
    refine dlseg.congr ?_ hseg₀
    intro cc hcc
    have : cc ≠ bt := by
      rintro rfl
      exact hnd hcc
    rw [Mem.map_write_ne _ this]
  · intro b hb
    rw [Mem.map_write_ne _ hb]

lemma ListRepr.nonempty_shape {T : Type} {m : Mem T} {input : LinkedList T}
    {bs : List Nat} {fs : List T} (hin : ListRepr m input bs fs)
    (h0 : input.len ≠ 0) :
    ∃ b₀ bs' bs₀ bt, bs = b₀ :: bs' ∧ bs = bs₀ ++ [bt] ∧
      input.head = some b₀ ∧ input.tail = some bt ∧ bt ∉ bs₀ := by
  obtain ⟨hseg, hlen, hnodup, _⟩ := hin
  cases bs with
  | nil =>
    rw [hlen] at h0
    simp at h0
  | cons b₀ bs' =>
    have hih : input.head = some b₀ := by
      rw [dlseg_cons_iff] at hseg
      exact hseg.choose_spec.choose_spec.2.2.1
    rcases List.eq_nil_or_concat (b₀ :: bs') with habs | ⟨bs₀, bt, hcat⟩
    · simp at habs
    rw [List.concat_eq_append] at hcat
    have hitl : input.tail = some bt := by
      rw [hcat, dlseg_snoc_iff] at hseg
      exact hseg.choose_spec.choose_spec.2.2.1
    refine ⟨b₀, bs', bs₀, bt, rfl, hcat, hih, hitl, ?_⟩
    intro hmem
    rw [hcat, List.nodup_append] at hnodup
    exact hnodup.2.2 hmem (by simp)

lemma splice_after_empty_spec {T : Type} (m : Mem T) (c : CursorMut T)
    {input : LinkedList T} (hin : input.len = 0) :
    c.splice_after m input = some (m, c, input) := by
  simp [CursorMut.splice_after, hin]

lemma splice_after_ghost_spec {T : Type} {m : Mem T} {c : CursorMut T}
    {as : List Nat} {es : List T} {input : LinkedList T} {bs : List Nat} {fs : List T}
    (h : CursorRepr m c as es) (hc : c.cur = none)
    (hin : ListRepr m input bs fs) (h0 : input.len ≠ 0) (hdisj : as.Disjoint bs) :
    ∃ m' c', c.splice_after m input = some (m', c', (⟨none, none, 0⟩ : LinkedList T)) ∧
      c'.cur = none ∧ c'.index = none ∧
      CursorRepr m' c' (bs ++ as) (fs ++ es) ∧
      c'.list.len = c.list.len + input.len ∧ m'.nextAddr = m.nextAddr := by
  have hgi : c.index = none := by
    rcases h.2 with ⟨_, hgi⟩ | ⟨a, i, hc', _, _⟩
    · exact hgi
    · rw [hc] at hc'
      exact absurd hc' (by simp)
  obtain ⟨b₀, bs', bs₀, bt, hbs1, hbs2, hih, hitl, hbtn⟩ := hin.nonempty_shape h0
  obtain ⟨hseg, hlen, hnodup, hbound⟩ := h.1
  obtain ⟨hinseg, hinlen, hinnodup, hinbound⟩ := hin
  cases as with
  | nil =>
    rw [dlseg_nil_iff] at hseg
    obtain ⟨rfl, hhd, htl⟩ := hseg
    refine ⟨m, ⟨none, input, c.index⟩, ?_, rfl, hgi, ?_, ?_, rfl⟩
    · simp [CursorMut.splice_after, h0, hc, hhd]
    · rw [List.append_nil, List.append_nil]
      exact ⟨⟨hinseg, hinlen, hinnodup, hinbound⟩, Or.inl ⟨rfl, hgi⟩⟩
    · show input.len = c.list.len + input.len
      simp at hlen
      omega
  | cons h₀ as' =>
    have hhd : c.list.head = some h₀ := by
      rw [dlseg_cons_iff] at hseg
      exact hseg.choose_spec.choose_spec.2.2.1
    have hh₀as : h₀ ∈ h₀ :: as' := by simp
    rw [hhd] at hseg
    obtain ⟨mA, hstep1, hsegA, hagree1, haddr1⟩ :=
      hseg.setPrev_head (List.nodup_cons.mp hnodup).1 input.tail
    have hinsegA : dlseg mA none input.head bs fs none input.tail := by
      refine dlseg.congr ?_ hinseg
      intro cc hcc
      exact hagree1 cc (by rintro rfl; exact hdisj hh₀as hcc)
    rw [hbs2, hitl] at hinsegA
    obtain ⟨mB, hstep2, hinsegB, hagree2, haddr2⟩ :=
      hinsegA.setNext_last hbtn (some h₀)
    have hsegB : dlseg mB input.tail (some h₀) (h₀ :: as') es none c.list.tail := by
      refine dlseg.congr ?_ hsegA
      intro cc hcc
      exact hagree2 cc (by rintro rfl; exact hdisj hcc (by rw [hbs2]; simp))
    rw [hitl] at hsegB
    have hfull : dlseg mB none input.head ((bs₀ ++ [bt]) ++ (h₀ :: as')) (fs ++ es)
        none c.list.tail := hinsegB.append hsegB
    rw [← hbs2] at hfull
    refine ⟨mB, ⟨none, ⟨input.head, c.list.tail, c.list.len + input.len⟩, c.index⟩,
      ?_, rfl, hgi, ?_, rfl, by rw [haddr2, haddr1]⟩
    · rw [hitl] at hstep1
      simp [CursorMut.splice_after, h0, hc, hhd, hstep1, hitl, hstep2]
    · refine ⟨⟨hfull, ?_, ?_, ?_⟩, Or.inl ⟨rfl, hgi⟩⟩
      · show c.list.len + input.len = (bs ++ (h₀ :: as')).length
        rw [List.length_append]
        omega
      · rw [List.nodup_append]
        exact ⟨hinnodup, hnodup, hdisj.symm⟩
      · intro cc hcc
        rw [haddr2, haddr1]
        rcases List.mem_append.mp hcc with hcc' | hcc'
        · exact hinbound cc hcc'
        · exact hbound cc hcc'

lemma splice_after_at_spec {T : Type} {m : Mem T} {c : CursorMut T}
    {as : List Nat} {es : List T} {a i : Nat} {input : LinkedList T}
    {bs : List Nat} {fs : List T}
    (h : CursorRepr m c as es) (hc : c.cur = some a) (hi : c.index = some i)
    (hin : ListRepr m input bs fs) (h0 : input.len ≠ 0) (hdisj : as.Disjoint bs) :
    ∃ m' c', c.splice_after m input = some (m', c', (⟨none, none, 0⟩ : LinkedList T)) ∧
      c'.cur = some a ∧ c'.index = some i ∧
      CursorRepr m' c' (as.take (i + 1) ++ bs ++ as.drop (i + 1))
        (es.take (i + 1) ++ fs ++ es.drop (i + 1)) ∧
      c'.list.len = c.list.len + input.len ∧ m'.nextAddr = m.nextAddr := by
  obtain ⟨b₀, bs', bs₀, bt, hbs1, hbs2, hih, hitl, hbtn⟩ := hin.nonempty_shape h0
  obtain ⟨hlist, hcur⟩ := h
  obtain ⟨hseg, hlen, hnodup, hbound⟩ := hlist
  obtain ⟨hinseg, hinlen, hinnodup, hinbound⟩ := hin
  rw [hih, hitl] at hinseg
  have hia : as[i]? = some a := by
    rcases hcur with ⟨hg, _⟩ | ⟨a', i', hc', hi', hia'⟩
    · rw [hc] at hg
      exact absurd hg (by simp)
    · rw [hc] at hc'
      rw [hi] at hi'
      obtain rfl : a' = a := by simpa using hc'.symm
      obtain rfl : i' = i := by simpa using hi'.symm
      exact hia'
  have hilen : i < as.length := (List.getElem?_eq_some.mp hia).1
  obtain ⟨nd, hnd, hel, hseg₁, hseg₂⟩ := hseg.split_at hia
  have htake : as.take (i + 1) = as.take i ++ [a] := by
    simp [List.take_succ, hia]
  have hetake : es.take (i + 1) = es.take i ++ [nd.elem] := by
    simp [List.take_succ, hel]
  have hlentake : (as.take (i + 1)).length = i + 1 := by
    rw [List.length_take]
    omega
  have hndtake : (as.take (i + 1)).Nodup := hnodup.sublist (List.take_sublist _ _)
  have hnddrop : (as.drop (i + 1)).Nodup := hnodup.sublist (List.drop_sublist _ _)
  have hdisjtd : (as.take (i + 1)).Disjoint (as.drop (i + 1)) :=
    List.disjoint_take_drop hnodup le_rfl
  have ha_take : a ∈ as.take (i + 1) := by
    rw [htake]
    simp
  have ha_not_take : a ∉ as.take i := by
    rw [htake] at hndtake
    intro hmem
    exact (List.nodup_append.mp hndtake).2.2 hmem (by simp)
  have htake_sub : ∀ cc ∈ as.take i, cc ∈ as.take (i + 1) := by
    intro cc hcc
    rw [htake]
    exact List.mem_append_left _ hcc
  have hcurtake : (as.take (i + 1))[i]? = some a := by
    rw [List.getElem?_take, if_pos (by omega)]
    exact hia
  have hb₀bs : b₀ ∈ bs := by rw [hbs1]; simp
  have hbtbs : bt ∈ bs := by rw [hbs2]; simp
  have hb₀ne_a : b₀ ≠ a := by
    rintro rfl
    exact hdisj (List.take_subset _ _ ha_take) hb₀bs
  have hbtne_a : bt ≠ a := by
    rintro rfl
    exact hdisj (List.take_subset _ _ ha_take) hbtbs
  have hb₀nbs' : b₀ ∉ bs' := by
    rw [hbs1, List.nodup_cons] at hinnodup
    exact hinnodup.1
  have hcurfull : (as.take (i + 1) ++ bs ++ as.drop (i + 1))[i]? = some a := by
    rw [List.getElem?_append, if_pos, List.getElem?_append, if_pos]
    · exact hcurtake
    · omega
    · rw [List.length_append, hlentake]
      omega
  have hndfull : (as.take (i + 1) ++ bs ++ as.drop (i + 1)).Nodup := by
    rw [List.nodup_append, List.nodup_append]
    refine ⟨⟨hndtake, hinnodup, fun cc hcc hcc' => hdisj (List.take_subset _ _ hcc) hcc'⟩,
      hnddrop, ?_⟩
    intro cc hcc hcc'
    rcases List.mem_append.mp hcc with h1 | h1
    · exact hdisjtd h1 hcc'
    · exact hdisj (List.drop_subset _ _ hcc') h1
  have hlenfull : (as.take (i + 1) ++ bs ++ as.drop (i + 1)).length =
      as.length + bs.length := by
    rw [List.length_append, List.length_append, hlentake, List.length_drop]
    omega
  cases hD : as.drop (i + 1) with
  | nil =>
    rw [hD, dlseg_nil_iff] at hseg₂
    obtain ⟨heD, hnxt, htl⟩ := hseg₂
    have hlenEq : as.length = i + 1 := by
      have hld := List.length_drop (i + 1) as
      rw [hD] at hld
      simp at hld
      omega
    have hinsegC : dlseg (m.write a { nd with next := some b₀ }) none (some b₀) bs fs
        none (some bt) := by
      refine dlseg.congr ?_ hinseg
      intro cc hcc
      rw [Mem.map_write_ne _ (by rintro rfl; exact hdisj (List.take_subset _ _ ha_take) hcc)]
    rw [hbs1] at hinsegC
    obtain ⟨mD, hstepD, hinsegD, hagreeD, haddrD⟩ := hinsegC.setPrev_head hb₀nbs' (some a)
    have hsegTake : dlseg mD none c.list.head (as.take i) (es.take i) (some a) nd.prev := by
      refine dlseg.congr ?_ hseg₁
      intro cc hcc
      have hccas : cc ∈ as := List.take_subset _ _ (htake_sub cc hcc)
      rw [hagreeD cc (by rintro rfl; exact hdisj hccas hb₀bs),
        Mem.map_write_ne _ (by rintro rfl; exact ha_not_take hcc)]
    have hnodeA : mD.map a = some { nd with next := some b₀ } := by
      rw [hagreeD a (Ne.symm hb₀ne_a), Mem.map_write_self]
    have hseg1 : dlseg mD none c.list.head (as.take i ++ [a]) (es.take i ++ [nd.elem])
        (some b₀) (some a) := by
      rw [dlseg_snoc_iff]
      exact ⟨{ nd with next := some b₀ }, es.take i, hnodeA, rfl, rfl, rfl, hsegTake⟩
    have hfull : dlseg mD none c.list.head ((as.take i ++ [a]) ++ (b₀ :: bs'))
        ((es.take i ++ [nd.elem]) ++ fs) none (some bt) := hseg1.append hinsegD
    rw [← hbs1, ← htake, ← hetake] at hfull
    refine ⟨mD, ⟨some a, ⟨c.list.head, some bt, c.list.len + input.len⟩, c.index⟩,
      ?_, rfl, hi, ?_, rfl, by rw [haddrD, Mem.nextAddr_write]⟩
    · simp [CursorMut.splice_after, h0, hc, hnd, hnxt, hih, hitl,
        Mem.setNext_eq hnd, hstepD]
    · rw [heD, List.append_nil, List.append_nil]
      refine ⟨⟨hfull, ?_, ?_, ?_⟩, Or.inr ⟨a, i, rfl, hi, ?_⟩⟩
      · show c.list.len + input.len = (as.take (i + 1) ++ bs).length
        rw [List.length_append, hlentake]
        omega
      · rw [List.nodup_append]
        exact ⟨hndtake, hinnodup, fun cc hcc hcc' => hdisj (List.take_subset _ _ hcc) hcc'⟩
      · intro cc hcc
        rw [haddrD]
        show cc < (m.write a { nd with next := some b₀ }).nextAddr
        rw [Mem.nextAddr_write]
        rcases List.mem_append.mp hcc with h1 | h1
        · exact hbound cc (List.take_subset _ _ h1)
        · exact hinbound cc h1
      · rw [List.getElem?_append, if_pos (by rw [hlentake]; omega)]
        exact hcurtake
  | cons n rest =>
    have hnxt : nd.next = some n := by
      rw [hD, dlseg_cons_iff] at hseg₂
      exact hseg₂.choose_spec.choose_spec.2.2.1
    have hn_drop : n ∈ as.drop (i + 1) := by rw [hD]; simp
    have hn_as : n ∈ as := List.drop_subset _ _ hn_drop
    have ha_ne_n : a ≠ n := by
      rintro rfl
      exact hdisjtd ha_take hn_drop
    have hn_nrest : n ∉ rest := by
      rw [hD, List.nodup_cons] at hnddrop
      exact hnddrop.1
    rw [hD] at hseg₂
    obtain ⟨mA, hstepA, hsegA, hagreeA, haddrA⟩ := hseg₂.setPrev_head hn_nrest (some bt)
    rw [hnxt] at hsegA
    have hinsegA : dlseg mA none (some b₀) bs fs none (some bt) := by
      refine dlseg.congr ?_ hinseg
      intro cc hcc
      exact hagreeA cc (by rintro rfl; exact hdisj hn_as hcc)
    rw [hbs2] at hinsegA
    obtain ⟨mB, hstepB, hinsegB, hagreeB, haddrB⟩ := hinsegA.setNext_last hbtn (some n)
    have hmBa : mB.map a = some nd := by
      rw [hagreeB a (Ne.symm hbtne_a), hagreeA a ha_ne_n, hnd]
    have hinsegC : dlseg (mB.write a { nd with next := some b₀ }) none (some b₀)
        (bs₀ ++ [bt]) fs (some n) (some bt) := by
      refine dlseg.congr ?_ hinsegB
      intro cc hcc
      rw [Mem.map_write_ne _
        (by rintro rfl; exact hdisj (List.take_subset _ _ ha_take) (hbs2 ▸ hcc))]
    rw [← hbs2, hbs1] at hinsegC
    obtain ⟨mD, hstepD, hinsegD, hagreeD, haddrD⟩ := hinsegC.setPrev_head hb₀nbs' (some a)
    have hsegTake : dlseg mD none c.list.head (as.take i) (es.take i) (some a) nd.prev := by
      refine dlseg.congr ?_ hseg₁
      intro cc hcc
      have hccas : cc ∈ as := List.take_subset _ _ (htake_sub cc hcc)
      rw [hagreeD cc (by rintro rfl; exact hdisj hccas hb₀bs),
        Mem.map_write_ne _ (by rintro rfl; exact ha_not_take hcc),
        hagreeB cc (by rintro rfl; exact hdisj hccas hbtbs),
        hagreeA cc (by rintro rfl; exact hdisjtd (htake_sub _ hcc) hn_drop)]
    have hnodeA : mD.map a = some { nd with next := some b₀ } := by
      rw [hagreeD a (Ne.symm hb₀ne_a), Mem.map_write_self]
    have hseg1 : dlseg mD none c.list.head (as.take i ++ [a]) (es.take i ++ [nd.elem])
        (some b₀) (some a) := by
      rw [dlseg_snoc_iff]
      exact ⟨{ nd with next := some b₀ }, es.take i, hnodeA, rfl, rfl, rfl, hsegTake⟩
    have hseg3 : dlseg mD (some bt) (some n) (n :: rest) (es.drop (i + 1))
        none c.list.tail := by
      refine dlseg.congr ?_ hsegA
      intro cc hcc
      have hccas : cc ∈ as := List.drop_subset _ _ (hD ▸ hcc)
      rw [hagreeD cc (by rintro rfl; exact hdisj hccas hb₀bs),
        Mem.map_write_ne _ (by rintro rfl; exact hdisjtd ha_take (hD ▸ hcc)),
        hagreeB cc (by rintro rfl; exact hdisj hccas hbtbs)]
    have hfull : dlseg mD none c.list.head (((as.take i ++ [a]) ++ (b₀ :: bs')) ++ (n :: rest))
        (((es.take i ++ [nd.elem]) ++ fs) ++ es.drop (i + 1)) none c.list.tail :=
      (hseg1.append hinsegD).append hseg3
    rw [← hbs1, ← htake, ← hetake, ← hD] at hfull
    refine ⟨mD, ⟨some a, ⟨c.list.head, c.list.tail, c.list.len + input.len⟩, c.index⟩,
      ?_, rfl, hi, ?_, rfl, by rw [haddrD, Mem.nextAddr_write, haddrB, haddrA]⟩
    · simp [CursorMut.splice_after, h0, hc, hnd, hnxt, hih, hitl, hstepA, hstepB,
        Mem.setNext_eq hmBa, hstepD]
    · rw [← hD]
      refine ⟨⟨hfull, ?_, hndfull, ?_⟩, Or.inr ⟨a, i, rfl, hi, hcurfull⟩⟩
      · show c.list.len + input.len = (as.take (i + 1) ++ bs ++ as.drop (i + 1)).length
        rw [hlenfull]
        omega
      · intro cc hcc
        rw [haddrD, Mem.nextAddr_write, haddrB, haddrA]
        rcases List.mem_append.mp hcc with h1 | h1
        · rcases List.mem_append.mp h1 with h2 | h2
          · exact hbound cc (List.take_subset _ _ h2)
          · exact hinbound cc h2
        · exact hbound cc (List.drop_subset _ _ h1)

lemma splice_before_empty_spec {T : Type} (m : Mem T) (c : CursorMut T)
    {input : LinkedList T} (hin : input.len = 0) :
    c.splice_before m input = some (m, c, input) := by
  simp [CursorMut.splice_before, hin]

lemma splice_before_ghost_spec {T : Type} {m : Mem T} {c : CursorMut T}
    {as : List Nat} {es : List T} {input : LinkedList T} {bs : List Nat} {fs : List T}
    (h : CursorRepr m c as es) (hc : c.cur = none)
    (hin : ListRepr m input bs fs) (h0 : input.len ≠ 0) (hdisj : as.Disjoint bs) :
    ∃ m' c', c.splice_before m input = some (m', c', (⟨none, none, 0⟩ : LinkedList T)) ∧
      c'.cur = none ∧ c'.index = none ∧
      CursorRepr m' c' (as ++ bs) (es ++ fs) ∧
      c'.list.len = c.list.len + input.len ∧ m'.nextAddr = m.nextAddr := by
  have hgi : c.index = none := by
    rcases h.2 with ⟨_, hgi⟩ | ⟨a, i, hc', _, _⟩
    · exact hgi
    · rw [hc] at hc'
      exact absurd hc' (by simp)
  obtain ⟨b₀, bs', bs₀, bt, hbs1, hbs2, hih, hitl, hbtn⟩ := hin.nonempty_shape h0
  obtain ⟨hseg, hlen, hnodup, hbound⟩ := h.1
  obtain ⟨hinseg, hinlen, hinnodup, hinbound⟩ := hin
  rw [hih, hitl] at hinseg
  rcases List.eq_nil_or_concat as with rfl | ⟨as₀, t₀, hcat⟩
  · rw [dlseg_nil_iff] at hseg
    obtain ⟨rfl, hhd, htl⟩ := hseg
    refine ⟨m, ⟨none, input, c.index⟩, ?_, rfl, hgi, ?_, ?_, rfl⟩
    · simp [CursorMut.splice_before, h0, hc, htl.symm]
    · rw [List.nil_append, List.nil_append]
      refine ⟨⟨?_, hinlen, hinnodup, hinbound⟩, Or.inl ⟨rfl, hgi⟩⟩
      show dlseg m none input.head bs fs none input.tail
      rw [hih, hitl]
      exact hinseg
    · show input.len = c.list.len + input.len
      simp at hlen
      omega
  · rw [List.concat_eq_append] at hcat
    have htl : c.list.tail = some t₀ := by
      have hs := hseg
      rw [hcat, dlseg_snoc_iff] at hs
      exact hs.choose_spec.choose_spec.2.2.1
    have ht₀as : t₀ ∈ as := by rw [hcat]; simp
    have ht₀n : t₀ ∉ as₀ := by
      rw [hcat, List.nodup_append] at hnodup
      intro hmem
      exact hnodup.2.2 hmem (by simp)
    rw [hcat, htl] at hseg
    obtain ⟨mA, hstepA, hsegA, hagreeA, haddrA⟩ := hseg.setNext_last ht₀n (some b₀)
    have hinsegA : dlseg mA none (some b₀) bs fs none (some bt) := by
      refine dlseg.congr ?_ hinseg
      intro cc hcc
      exact hagreeA cc (by rintro rfl; exact hdisj ht₀as hcc)
    rw [hbs1] at hinsegA
    obtain ⟨mB, hstepB, hinsegB, hagreeB, haddrB⟩ :=
      hinsegA.setPrev_head (by rw [hbs1, List.nodup_cons] at hinnodup; exact hinnodup.1)
        (some t₀)
    have hsegB : dlseg mB none c.list.head (as₀ ++ [t₀]) es (some b₀) (some t₀) := by
      refine dlseg.congr ?_ hsegA
      intro cc hcc
      have hccas : cc ∈ as := by rw [hcat]; exact hcc
      exact hagreeB cc (by rintro rfl; exact hdisj hccas (by rw [hbs1]; simp))
    have hfull : dlseg mB none c.list.head ((as₀ ++ [t₀]) ++ (b₀ :: bs')) (es ++ fs)
        none (some bt) := hsegB.append hinsegB
    rw [← hbs1, ← hcat] at hfull
    refine ⟨mB, ⟨none, ⟨c.list.head, some bt, c.list.len + input.len⟩, c.index⟩,
      ?_, rfl, hgi, ?_, rfl, by rw [haddrB, haddrA]⟩
    · simp [CursorMut.splice_before, h0, hc, htl, hih, hitl, hstepA, hstepB]
    · refine ⟨⟨hfull, ?_, ?_, ?_⟩, Or.inl ⟨rfl, hgi⟩⟩
      · show c.list.len + input.len = (as ++ bs).length
        rw [List.length_append]
        omega
      · rw [List.nodup_append]
        exact ⟨hnodup, hinnodup, hdisj⟩
      · intro cc hcc
        rw [haddrB, haddrA]
        rcases List.mem_append.mp hcc with hcc' | hcc'
        · exact hbound cc hcc'
        · exact hinbound cc hcc'

lemma splice_before_at_spec {T : Type} {m : Mem T} {c : CursorMut T}
    {as : List Nat} {es : List T} {a i : Nat} {input : LinkedList T}
    {bs : List Nat} {fs : List T}
    (h : CursorRepr m c as es) (hc : c.cur = some a) (hi : c.index = some i)
    (hin : ListRepr m input bs fs) (h0 : input.len ≠ 0) (hdisj : as.Disjoint bs) :
    ∃ m' c', c.splice_before m input = some (m', c', (⟨none, none, 0⟩ : LinkedList T)) ∧
      c'.cur = some a ∧ c'.index = some (i + input.len) ∧
      CursorRepr m' c' (as.take i ++ bs ++ as.drop i) (es.take i ++ fs ++ es.drop i) ∧
      c'.list.len = c.list.len + input.len ∧ m'.nextAddr = m.nextAddr := by
  obtain ⟨b₀, bs', bs₀, bt, hbs1, hbs2, hih, hitl, hbtn⟩ := hin.nonempty_shape h0
  obtain ⟨hlist, hcur⟩ := h
  obtain ⟨hseg, hlen, hnodup, hbound⟩ := hlist
  obtain ⟨hinseg, hinlen, hinnodup, hinbound⟩ := hin
  rw [hih, hitl] at hinseg
  have hia : as[i]? = some a := by
    rcases hcur with ⟨hg, _⟩ | ⟨a', i', hc', hi', hia'⟩
    · rw [hc] at hg
      exact absurd hg (by simp)
    · rw [hc] at hc'
      rw [hi] at hi'
      obtain rfl : a' = a := by simpa using hc'.symm
      obtain rfl : i' = i := by simpa using hi'.symm
      exact hia'
  have hilen : i < as.length := (List.getElem?_eq_some.mp hia).1
  have hielen : i < es.length := by
    rw [hseg.length_eq]
    exact hilen
  obtain ⟨nd, hnd, hel, hseg₁, hseg₂⟩ := hseg.split_at hia
  have hdropi : as.drop i = a :: as.drop (i + 1) := by
    rw [List.drop_eq_getElem_cons hilen, (List.getElem?_eq_some.mp hia).2]
  have hedropi : es.drop i = nd.elem :: es.drop (i + 1) := by
    rw [List.drop_eq_getElem_cons hielen, (List.getElem?_eq_some.mp hel).2]
  have hlentakei : (as.take i).length = i := by
    rw [List.length_take]
    omega
  have hndtakei : (as.take i).Nodup := hnodup.sublist (List.take_sublist _ _)
  have hnddropi : (as.drop i).Nodup := hnodup.sublist (List.drop_sublist _ _)
  have hdisji : (as.take i).Disjoint (as.drop i) := List.disjoint_take_drop hnodup le_rfl
  have ha_drop : a ∈ as.drop i := by rw [hdropi]; simp
  have ha_as : a ∈ as := List.drop_subset _ _ ha_drop
  have ha_ndrop1 : a ∉ as.drop (i + 1) := by
    rw [hdropi, List.nodup_cons] at hnddropi
    exact hnddropi.1
  have hdrop1_sub : ∀ cc ∈ as.drop (i + 1), cc ∈ as.drop i := by
    intro cc hcc
    rw [hdropi]
    exact List.mem_cons_of_mem _ hcc
  have hb₀bs : b₀ ∈ bs := by rw [hbs1]; simp
  have hbtbs : bt ∈ bs := by rw [hbs2]; simp
  have hb₀ne_a : b₀ ≠ a := by
    rintro rfl
    exact hdisj ha_as hb₀bs
  have hbtne_a : bt ≠ a := by
    rintro rfl
    exact hdisj ha_as hbtbs
  have hb₀nbs' : b₀ ∉ bs' := by
    rw [hbs1, List.nodup_cons] at hinnodup
    exact hinnodup.1
  have hcurfull : (as.take i ++ bs ++ as.drop i)[i + input.len]? = some a := by
    rw [List.getElem?_append,
      if_neg (by rw [List.length_append, hlentakei]; omega),
      List.length_append, hlentakei,
      show i + input.len - (i + bs.length) = 0 by omega, hdropi]
    simp
  have hndfull : (as.take i ++ bs ++ as.drop i).Nodup := by
    rw [List.nodup_append, List.nodup_append]
    refine ⟨⟨hndtakei, hinnodup, fun cc hcc hcc' => hdisj (List.take_subset _ _ hcc) hcc'⟩,
      hnddropi, ?_⟩
    intro cc hcc hcc'
    rcases List.mem_append.mp hcc with h1 | h1
    · exact hdisji h1 hcc'
    · exact hdisj (List.drop_subset _ _ hcc') h1
  have hlenfull : (as.take i ++ bs ++ as.drop i).length = as.length + bs.length := by
    rw [List.length_append, List.length_append, hlentakei, List.length_drop]
    omega
  cases hi0 : i with
  | zero =>
    subst hi0
    rw [List.take_zero, dlseg_nil_iff] at hseg₁
    obtain ⟨heT, hhd, hp0⟩ := hseg₁
    have hinsegC : dlseg (m.write a { nd with prev := some bt }) none (some b₀) bs fs
        none (some bt) := by
      refine dlseg.congr ?_ hinseg
      intro cc hcc
      rw [Mem.map_write_ne _ (by rintro rfl; exact hdisj ha_as hcc)]
    rw [hbs2] at hinsegC
    obtain ⟨mD, hstepD, hinsegD, hagreeD, haddrD⟩ := hinsegC.setNext_last hbtn (some a)
    have hnodeA : mD.map a = some { nd with prev := some bt } := by
      rw [hagreeD a (Ne.symm hbtne_a), Mem.map_write_self]
    have hseg3 : dlseg mD (some bt) (some a) (a :: as.drop 1) (nd.elem :: es.drop 1)
        none c.list.tail := by
      rw [dlseg_cons_iff]
      refine ⟨{ nd with prev := some bt }, es.drop 1, hnodeA, rfl, rfl, rfl, ?_⟩
      refine dlseg.congr ?_ hseg₂
      intro cc hcc
      have hcc1 : cc ≠ a := by
        rintro rfl
        exact ha_ndrop1 hcc
      have hcc2 : cc ≠ bt := by
        rintro rfl
        exact hdisj (List.drop_subset _ _ hcc) hbtbs
      rw [hagreeD cc hcc2, Mem.map_write_ne _ hcc1]
    have hfull : dlseg mD none (some b₀) ((bs₀ ++ [bt]) ++ (a :: as.drop 1))
        (fs ++ (nd.elem :: es.drop 1)) none c.list.tail := hinsegD.append hseg3
    rw [← hbs2, ← hdropi, ← hedropi] at hfull
    refine ⟨mD, ⟨some a, ⟨some b₀, c.list.tail, c.list.len + input.len⟩,
      some (0 + input.len)⟩, ?_, rfl, rfl, ?_, rfl,
      by rw [haddrD, Mem.nextAddr_write]⟩
    · simp [CursorMut.splice_before, h0, hc, hnd, hp0.symm, hih, hitl,
        Mem.setPrev_eq hnd, hstepD, hi]
    · rw [List.take_zero, List.take_zero, List.nil_append, List.nil_append]
      refine ⟨⟨hfull, ?_, ?_, ?_⟩, Or.inr ⟨a, 0 + input.len, rfl, rfl, ?_⟩⟩
      · show c.list.len + input.len = (bs ++ as.drop 0).length
        rw [List.length_append, List.length_drop]
        omega
      · rw [List.nodup_append]
        refine ⟨hinnodup, ?_, ?_⟩
        · simpa using hnddropi
        · intro cc hcc hcc'
          exact hdisj (List.drop_subset _ _ hcc') hcc
      · intro cc hcc
        rw [haddrD, Mem.nextAddr_write]
        rcases List.mem_append.mp hcc with h1 | h1
        · exact hinbound cc h1
        · exact hbound cc (List.drop_subset _ _ h1)
      · have := hcurfull
        rw [List.take_zero, List.nil_append] at this
        simpa using this
  | succ j =>
    subst hi0
    rcases List.eq_nil_or_concat (as.take (j + 1)) with habs | ⟨as₀, p, hcat⟩
    · rw [habs] at hlentakei
      simp at hlentakei
    rw [List.concat_eq_append] at hcat
    have hp_take : p ∈ as.take (j + 1) := by rw [hcat]; simp
    have hp_as : p ∈ as := List.take_subset _ _ hp_take
    have hpn : p ∉ as₀ := by
      rw [hcat, List.nodup_append] at hndtakei
      intro hmem
      exact hndtakei.2.2 hmem (by simp)
    have hqp : nd.prev = some p := by
      have hs := hseg₁
      rw [hcat, dlseg_snoc_iff] at hs
      exact hs.choose_spec.choose_spec.2.2.1
    have hane_p : a ≠ p := by
      rintro rfl
      exact hdisji hp_take ha_drop
    rw [hcat, hqp] at hseg₁
    obtain ⟨mA, hstepA, hsegA, hagreeA, haddrA⟩ := hseg₁.setNext_last hpn (some b₀)
    have hinsegA : dlseg mA none (some b₀) bs fs none (some bt) := by
      refine dlseg.congr ?_ hinseg
      intro cc hcc
      exact hagreeA cc (by rintro rfl; exact hdisj hp_as hcc)
    rw [hbs1] at hinsegA
    obtain ⟨mB, hstepB, hinsegB, hagreeB, haddrB⟩ := hinsegA.setPrev_head hb₀nbs' (some p)
    have hmBa : mB.map a = some nd := by
      rw [hagreeB a (Ne.symm hb₀ne_a), hagreeA a hane_p, hnd]
    have hinsegC : dlseg (mB.write a { nd with prev := some bt }) (some p) (some b₀)
        (b₀ :: bs') fs none (some bt) := by
      refine dlseg.congr ?_ hinsegB
      intro cc hcc
      rw [Mem.map_write_ne _ (by rintro rfl; exact hdisj ha_as (hbs1 ▸ hcc))]
    rw [← hbs1, hbs2] at hinsegC
    obtain ⟨mD, hstepD, hinsegD, hagreeD, haddrD⟩ := hinsegC.setNext_last hbtn (some a)
    have hsegTake : dlseg mD none c.list.head (as₀ ++ [p]) (es.take (j + 1))
        (some b₀) (some p) := by
      refine dlseg.congr ?_ hsegA
      intro cc hcc
      have hccas : cc ∈ as := List.take_subset _ _ (hcat ▸ hcc : cc ∈ as.take (j + 1))
      rw [hagreeD cc (by rintro rfl; exact hdisj hccas hbtbs),
        Mem.map_write_ne _ (by rintro rfl; exact hdisji (hcat ▸ hcc) ha_drop),
        hagreeB cc (by rintro rfl; exact hdisj hccas hb₀bs)]
    have hnodeA : mD.map a = some { nd with prev := some bt } := by
      rw [hagreeD a (Ne.symm hbtne_a), Mem.map_write_self]
    have hseg3 : dlseg mD (some bt) (some a) (a :: as.drop (j + 2))
        (nd.elem :: es.drop (j + 2)) none c.list.tail := by
      rw [dlseg_cons_iff]
      refine ⟨{ nd with prev := some bt }, es.drop (j + 2), hnodeA, rfl, rfl, rfl, ?_⟩
      refine dlseg.congr ?_ hseg₂
      intro cc hcc
      have hccdi : cc ∈ as.drop (j + 1) := hdrop1_sub cc hcc
      have hccas : cc ∈ as := List.drop_subset _ _ hccdi
      have hcc1 : cc ≠ a := by
        rintro rfl
        exact ha_ndrop1 hcc
      rw [hagreeD cc (by rintro rfl; exact hdisj hccas hbtbs),
        Mem.map_write_ne _ hcc1,
        hagreeB cc (by rintro rfl; exact hdisj hccas hb₀bs),
        hagreeA cc (by rintro rfl; exact hdisji hp_take hccdi)]
    have hfull : dlseg mD none c.list.head (((as₀ ++ [p]) ++ bs) ++ (a :: as.drop (j + 2)))
        ((es.take (j + 1) ++ fs) ++ (nd.elem :: es.drop (j + 2))) none c.list.tail :=
      (hsegTake.append (hbs2 ▸ hinsegD)).append hseg3
    rw [← hcat, ← hdropi, ← hedropi] at hfull
    refine ⟨mD, ⟨some a, ⟨c.list.head, c.list.tail, c.list.len + input.len⟩,
      some (j + 1 + input.len)⟩, ?_, rfl, rfl, ?_, rfl,
      by rw [haddrD, Mem.nextAddr_write, haddrB, haddrA]⟩
    · simp [CursorMut.splice_before, h0, hc, hnd, hqp, hih, hitl, hstepA, hstepB,
        Mem.setPrev_eq hmBa, hstepD, hi]
    · refine ⟨⟨hfull, ?_, hndfull, ?_⟩, Or.inr ⟨a, j + 1 + input.len, rfl, rfl, hcurfull⟩⟩
      · show c.list.len + input.len = (as.take (j + 1) ++ bs ++ as.drop (j + 1)).length
        rw [hlenfull]
        omega
      · intro cc hcc
        rw [haddrD, Mem.nextAddr_write, haddrB, haddrA]
        rcases List.mem_append.mp hcc with h1 | h1
        · rcases List.mem_append.mp h1 with h2 | h2
          · exact hbound cc (List.take_subset _ _ h2)
          · exact hinbound cc h2
        · exact hbound cc (List.drop_subset _ _ h1)

lemma remove_current_ghost_spec {T : Type} (m : Mem T) (c : CursorMut T)
    (hc : c.cur = none) : c.remove_current m = some (m, c, none) := by
  simp [CursorMut.remove_current, hc]

lemma remove_current_at_spec {T : Type} {m : Mem T} {c : CursorMut T}
    {as : List Nat} {es : List T} {a i : Nat}
    (h : CursorRepr m c as es) (hc : c.cur = some a) (hi : c.index = some i) :
    ∃ m' c' e, c.remove_current m = some (m', c', some e) ∧ es[i]? = some e ∧
      c'.cur = as[i + 1]? ∧
      c'.index = (if i + 1 < as.length then some i else none) ∧
      CursorRepr m' c' (as.take i ++ as.drop (i + 1)) (es.take i ++ es.drop (i + 1)) ∧
      c'.list.len = c.list.len - 1 ∧ m'.nextAddr = m.nextAddr := by
  obtain ⟨hlist, hcur⟩ := h
  obtain ⟨hseg, hlen, hnodup, hbound⟩ := hlist
  have hia : as[i]? = some a := by
    rcases hcur with ⟨hg, _⟩ | ⟨a', i', hc', hi', hia'⟩
    · rw [hc] at hg
      exact absurd hg (by simp)
    · rw [hc] at hc'
      rw [hi] at hi'
      obtain rfl : a' = a := by simpa using hc'.symm
      obtain rfl : i' = i := by simpa using hi'.symm
      exact hia'
  have hilen : i < as.length := (List.getElem?_eq_some.mp hia).1
  obtain ⟨nd, hnd, hel, hseg₁, hseg₂⟩ := hseg.split_at hia
  obtain ⟨nd', hnd', _, hnx', hpv'⟩ := hseg.get i a hia
  have hndeq : nd' = nd := by
    rw [hnd] at hnd'
    exact (Option.some_injective _ hnd').symm
  rw [hndeq] at hnx' hpv'
  have hnexteq : nd.next = as[i + 1]? := by
    rw [hnx']
    by_cases hb : i + 1 < as.length
    · rw [if_pos hb]
    · rw [if_neg hb, eq_comm, List.getElem?_eq_none_iff]
      omega
  have hsub : checkedSub c.list.len 1 = some (c.list.len - 1) := by
    rw [checkedSub, if_pos (by omega)]
  have hlentakei : (as.take i).length = i := by
    rw [List.length_take]
    omega
  have hndtakei : (as.take i).Nodup := hnodup.sublist (List.take_sublist _ _)
  have hnddropi : (as.drop i).Nodup := hnodup.sublist (List.drop_sublist _ _)
  have hdisji : (as.take i).Disjoint (as.drop i) := List.disjoint_take_drop hnodup le_rfl
  have hdropi : as.drop i = a :: as.drop (i + 1) := by
    rw [List.drop_eq_getElem_cons hilen, (List.getElem?_eq_some.mp hia).2]
  have ha_drop : a ∈ as.drop i := by rw [hdropi]; simp
  have ha_as : a ∈ as := List.drop_subset _ _ ha_drop
  have ha_ndrop1 : a ∉ as.drop (i + 1) := by
    rw [hdropi, List.nodup_cons] at hnddropi
    exact hnddropi.1
  have ha_ntake : a ∉ as.take i := fun hmem => hdisji hmem ha_drop
  have hdrop1_sub : ∀ cc ∈ as.drop (i + 1), cc ∈ as.drop i := by
    intro cc hcc
    rw [hdropi]
    exact List.mem_cons_of_mem _ hcc
  obtain ⟨m1, hm1, hseg1m1, hagree1, haddr1⟩ :
      ∃ m1, relinkPrevSide m nd.prev nd.next = some m1 ∧
        dlseg m1 none (if nd.prev = none then nd.next else c.list.head)
          (as.take i) (es.take i) nd.next nd.prev ∧
        (∀ b, b ∉ as.take i → m1.map b = m.map b) ∧ m1.nextAddr = m.nextAddr := by
    cases hi0 : i with
    | zero =>
      subst hi0
      rw [List.take_zero, dlseg_nil_iff] at hseg₁
      obtain ⟨_, hhd, hp0⟩ := hseg₁
      refine ⟨m, by rw [← hp0]; rfl, ?_, fun b _ => rfl, rfl⟩
      rw [if_pos hp0.symm, List.take_zero, List.take_zero, dlseg_nil_iff]
      exact ⟨rfl, rfl, hp0⟩
    | succ j =>
      subst hi0
      rcases List.eq_nil_or_concat (as.take (j + 1)) with habs | ⟨as₀, p, hcat⟩
      · rw [habs] at hlentakei
        simp at hlentakei
      rw [List.concat_eq_append] at hcat
      have hpn : p ∉ as₀ := by
        rw [hcat, List.nodup_append] at hndtakei
        intro hmem
        exact hndtakei.2.2 hmem (by simp)
      have hqp : nd.prev = some p := by
        have hs := hseg₁
        rw [hcat, dlseg_snoc_iff] at hs
        exact hs.choose_spec.choose_spec.2.2.1
      rw [hcat, hqp] at hseg₁
      obtain ⟨mA, hstepA, hsegA, hagreeA, haddrA⟩ := hseg₁.setNext_last hpn nd.next
      refine ⟨mA, by rw [hqp]; exact hstepA, ?_, ?_, haddrA⟩
      · rw [if_neg (by rw [hqp]; simp), hcat, hqp]
        exact hsegA
      · intro b hb
        refine hagreeA b ?_
        rintro rfl
        exact hb (by rw [hcat]; simp)
  obtain ⟨m2, hm2, hseg2m2, hagree2, haddr2⟩ :
      ∃ m2, relinkNextSide m1 nd.prev nd.next = some m2 ∧
        dlseg m2 nd.prev nd.next (as.drop (i + 1)) (es.drop (i + 1)) none
          (if nd.next = none then nd.prev else c.list.tail) ∧
        (∀ b, b ∉ as.drop (i + 1) → m2.map b = m1.map b) ∧ m2.nextAddr = m1.nextAddr := by
    cases hD : as.drop (i + 1) with
    | nil =>
      rw [hD, dlseg_nil_iff] at hseg₂
      obtain ⟨heD, hnxt, htl⟩ := hseg₂
      refine ⟨m1, by rw [hnxt]; rfl, ?_, fun b _ => rfl, rfl⟩
      rw [if_pos hnxt, heD, dlseg_nil_iff]
      exact ⟨rfl, hnxt, rfl⟩
    | cons n rest =>
      have hnxt : nd.next = some n := by
        rw [hD, dlseg_cons_iff] at hseg₂
        exact hseg₂.choose_spec.choose_spec.2.2.1
      have hn_nrest : n ∉ rest := by
        have := hnodup.sublist (List.drop_sublist (i + 1) as)
        rw [hD, List.nodup_cons] at this
        exact this.1
      have hseg₂m1 : dlseg m1 (some a) nd.next (as.drop (i + 1)) (es.drop (i + 1))
          none c.list.tail := by
        refine dlseg.congr ?_ hseg₂
        intro cc hcc
        exact hagree1 cc (fun hmem => hdisji hmem (hdrop1_sub cc hcc))
      rw [hD] at hseg₂m1
      obtain ⟨mB, hstepB, hsegB, hagreeB, haddrB⟩ := hseg₂m1.setPrev_head hn_nrest nd.prev
      refine ⟨mB, by rw [hnxt]; exact hstepB, ?_, ?_, haddrB⟩
      · rw [if_neg (by rw [hnxt]; simp)]
        exact hsegB
      · intro b hb
        refine hagreeB b ?_
        rintro rfl
        exact hb (by simp)
  have hseg1m2 : dlseg m2 none (if nd.prev = none then nd.next else c.list.head)
      (as.take i) (es.take i) nd.next nd.prev := by
    refine dlseg.congr ?_ hseg1m1
    intro cc hcc
    exact hagree2 cc (fun hmem => hdisji hcc (hdrop1_sub cc hmem))
  have hsegF1 : dlseg (m2.free a) none (if nd.prev = none then nd.next else c.list.head)
      (as.take i) (es.take i) nd.next nd.prev := by
    refine dlseg.congr ?_ hseg1m2
    intro cc hcc
    exact Mem.map_free_ne _ (by rintro rfl; exact ha_ntake hcc)
  have hsegF2 : dlseg (m2.free a) nd.prev nd.next (as.drop (i + 1)) (es.drop (i + 1))
      none (if nd.next = none then nd.prev else c.list.tail) := by
    refine dlseg.congr ?_ hseg2m2
    intro cc hcc
    exact Mem.map_free_ne _ (by rintro rfl; exact ha_ndrop1 hcc)
  have hfull : dlseg (m2.free a) none (if nd.prev = none then nd.next else c.list.head)
      (as.take i ++ as.drop (i + 1)) (es.take i ++ es.drop (i + 1)) none
      (if nd.next = none then nd.prev else c.list.tail) := hsegF1.append hsegF2
  have hlenF : (as.take i ++ as.drop (i + 1)).length = as.length - 1 := by
    rw [List.length_append, hlentakei, List.length_drop]
    omega
  have hndF : (as.take i ++ as.drop (i + 1)).Nodup := by
    rw [List.nodup_append]
    exact ⟨hndtakei, hnodup.sublist (List.drop_sublist _ _),
      fun cc hcc hcc' => hdisji hcc (hdrop1_sub cc hcc')⟩
  refine ⟨m2.free a,
    ⟨nd.next, ⟨if nd.prev = none then nd.next else c.list.head,
      if nd.next = none then nd.prev else c.list.tail, c.list.len - 1⟩,
      if nd.next = none then none else c.index⟩, nd.elem,
    ?_, hel, ?_, ?_, ?_, rfl, by rw [Mem.nextAddr_free, haddr2, haddr1]⟩
  · simp [CursorMut.remove_current, hc, hnd, hm1, hm2, hsub]
  · exact hnexteq
  · show (if nd.next = none then none else c.index) =
      if i + 1 < as.length then some i else none
    rw [hnexteq, hi]
    by_cases hb : i + 1 < as.length
    · rw [if_pos hb, if_neg (fun hnone => absurd (List.getElem?_eq_none_iff.mp hnone)
        (by omega))]
    · rw [if_neg hb, if_pos (List.getElem?_eq_none_iff.mpr (by omega))]
  · refine ⟨⟨hfull, ?_, hndF, ?_⟩, ?_⟩
    · show c.list.len - 1 = (as.take i ++ as.drop (i + 1)).length
      rw [hlenF]
      omega
    · intro cc hcc
      rw [Mem.nextAddr_free, haddr2, haddr1]
      rcases List.mem_append.mp hcc with h1 | h1
      · exact hbound cc (List.take_subset _ _ h1)
      · exact hbound cc (List.drop_subset _ _ h1)
    · by_cases hb : i + 1 < as.length
      · obtain ⟨n, hn⟩ : ∃ n, as[i + 1]? = some n := ⟨_, List.getElem?_eq_getElem hb⟩
        refine Or.inr ⟨n, i, ?_, ?_, ?_⟩
        · show nd.next = some n
          rw [hnexteq, hn]
        · show (if nd.next = none then none else c.index) = some i
          rw [hnexteq, hn, if_neg (by simp), hi]
        · rw [List.getElem?_append, if_neg (by rw [hlentakei]; omega), hlentakei,
            show i - i = 0 by omega, List.getElem?_drop]
          simpa using hn
      · refine Or.inl ⟨?_, ?_⟩
        · show nd.next = none
          rw [hnexteq, List.getElem?_eq_none_iff]
          omega
        · show (if nd.next = none then none else c.index) = none
          rw [if_pos]
          rw [hnexteq, List.getElem?_eq_none_iff]
          omega

lemma drain_spec {T : Type} {m : Mem T} {p x y q : Option Nat} {as : List Nat}
    {es : List T} (h : dlseg m p x as es y q) (b : Option Nat) :
    Iter.drain m as.length ⟨x, b, as.length⟩ = some es := by
  induction as generalizing p x es b with
  | nil =>
    rw [dlseg_nil_iff] at h
    obtain ⟨rfl, _, _⟩ := h
    simp [Iter.drain, Iter.next]
  | cons a as' ih =>
    rw [dlseg_cons_iff] at h
    obtain ⟨nd, es', hnd, rfl, hx, hp, hrest⟩ := h
    have hsub : checkedSub (as' : List Nat).length.succ 1 = some as'.length := by
      rw [checkedSub, if_pos (by omega)]
      simp
    simp [Iter.drain, Iter.next, hx, hnd, checkedSub, ih hrest]

lemma seq_spec {T : Type} {m : Mem T} {l : LinkedList T} {as : List Nat}
    {es : List T} (h : ListRepr m l as es) : l.seq m = some es := by
  rw [LinkedList.seq, LinkedList.iter, h.2.1]
  exact drain_spec h.1 l.tail

/-- Run a sequence of calls on a double-ended iterator: `true` is `next`,
`false` is `next_back`; collect each call's yield. -/
def iterRun {T : Type} (m : Mem T) : List Bool → Iter T → Option (List (Option T) × Iter T)
  | [], it => some ([], it)
  | op :: ops, it => do
    let r ← (if op then it.next m else it.next_back m)
    let s ← iterRun m ops r.2
    pure (r.1 :: s.1, s.2)

/-- Reference two-pointer semantics of a double-ended iterator over the
element sequence `es`: `k` elements already taken from the front, `j` from
the back; a call yields nothing once `k + j` reaches the length. -/
def twoEnd {T : Type} (es : List T) : List Bool → Nat → Nat → List (Option T)
  | [], _, _ => []
  | op :: ops, k, j =>
    if k + j < es.length then
      (if op then es[k]? else es[es.length - 1 - j]?) ::
        twoEnd es ops (if op then k + 1 else k) (if op then j else j + 1)
    else none :: twoEnd es ops k j

/-- Outputs of the calls of one kind (`next` when `b = true`) within a run. -/
def selB {T : Type} (b : Bool) : List Bool → List (Option T) → List (Option T)
  | op :: ops, r :: rs => if op = b then r :: selB b ops rs else selB b ops rs
  | _, _ => []

lemma iterRun_inv {T : Type} {m : Mem T} {l : LinkedList T} {as : List Nat}
    {es : List T} (h : ListRepr m l as es) :
    ∀ (ops : List Bool) (k j : Nat) (it : Iter T),
      k + j ≤ as.length →
      it.len = as.length - k - j →
      (k + j < as.length → it.front = as[k]? ∧ it.back = as[as.length - 1 - j]?) →
      ∃ it', iterRun m ops it = some (twoEnd es ops k j, it') := by
  have hlen := h.1.length_eq
  intro ops
  induction ops with
  | nil =>
    intro k j it _ _ _
    exact ⟨it, by simp [iterRun, twoEnd]⟩
  | cons op ops ih =>
    intro k j it hkj hitlen hptr
    by_cases hlt : k + j < as.length
    · obtain ⟨hfr, hbk⟩ := hptr hlt
      have hitpos : 0 < it.len := by omega
      have hsub : checkedSub it.len 1 = some (it.len - 1) := by
        rw [checkedSub, if_pos (by omega)]
      cases op with
      | true =>
        obtain ⟨a, ha⟩ : ∃ a, as[k]? = some a :=
          ⟨_, List.getElem?_eq_getElem (by omega)⟩
        obtain ⟨nd, hnd, hela, hnxa, _⟩ := h.1.get k a ha
        have hnext : it.next m = some (some nd.elem, ⟨nd.next, it.back, it.len - 1⟩) := by
          rw [Iter.next, if_pos hitpos, hfr, ha]
          simp [hnd, hsub]
        have hnxeq : nd.next = as[k + 1]? := by
          rw [hnxa]
          by_cases hb : k + 1 < as.length
          · rw [if_pos hb]
          · rw [if_neg hb, eq_comm, List.getElem?_eq_none_iff]
            omega
        have hcond : k + 1 + j < as.length →
            (⟨nd.next, it.back, it.len - 1⟩ : Iter T).front = as[k + 1]? ∧
            (⟨nd.next, it.back, it.len - 1⟩ : Iter T).back =
              as[as.length - 1 - j]? := by
          intro hlt'
          exact ⟨by simpa using hnxeq, by simpa using hbk⟩
        obtain ⟨it', hrun⟩ := ih (k + 1) j ⟨nd.next, it.back, it.len - 1⟩
          (by omega) (by show it.len - 1 = as.length - (k + 1) - j; omega) hcond
        refine ⟨it', ?_⟩
        rw [iterRun, if_pos rfl, hnext, twoEnd, if_pos (by omega)]
        simp [hrun, hela]
      | false =>
        obtain ⟨a, ha⟩ : ∃ a, as[as.length - 1 - j]? = some a :=
          ⟨_, List.getElem?_eq_getElem (by omega)⟩
        obtain ⟨nd, hnd, hela, _, hpva⟩ := h.1.get (as.length - 1 - j) a ha
        have hnext : it.next_back m =
            some (some nd.elem, ⟨it.front, nd.prev, it.len - 1⟩) := by
          rw [Iter.next_back, if_pos hitpos, hbk, ha]
          simp [hnd, hsub]
        have hcond : k + (j + 1) < as.length →
            (⟨it.front, nd.prev, it.len - 1⟩ : Iter T).front = as[k]? ∧
            (⟨it.front, nd.prev, it.len - 1⟩ : Iter T).back =
              as[as.length - 1 - (j + 1)]? := by
          intro hlt'
          refine ⟨by simpa using hfr, ?_⟩
          show nd.prev = as[as.length - 1 - (j + 1)]?
          rw [hpva, if_neg (by omega),
            show as.length - 1 - j - 1 = as.length - 1 - (j + 1) by omega]
        obtain ⟨it', hrun⟩ := ih k (j + 1) ⟨it.front, nd.prev, it.len - 1⟩
          (by omega) (by show it.len - 1 = as.length - k - (j + 1); omega) hcond
        have helb : es[es.length - 1 - j]? = some nd.elem := by
          rw [hlen]
          exact hela
        refine ⟨it', ?_⟩
        rw [iterRun, if_neg (by simp), hnext, twoEnd, if_pos (by omega)]
        simp [hrun, helb]
    · have hnone : it.len = 0 := by omega
      have hnexts : (if op then it.next m else it.next_back m) = some (none, it) := by
        cases op <;> simp [Iter.next, Iter.next_back, hnone]
      obtain ⟨it', hrun⟩ := ih k j it hkj hitlen (fun hl => absurd hl hlt)
      refine ⟨it', ?_⟩
      rw [iterRun, hnexts, twoEnd, if_neg (by rw [hlen]; omega)]
      simp [hrun]

lemma twoEnd_length {T : Type} (es : List T) :
    ∀ (ops : List Bool) (k j : Nat), (twoEnd es ops k j).length = ops.length := by
  intro ops
  induction ops with
  | nil => intro k j; rfl
  | cons op ops ih =>
    intro k j
    rw [twoEnd]
    by_cases hlt : k + j < es.length
    · rw [if_pos hlt]
      simp [ih]
    · rw [if_neg hlt]
      simp [ih]

lemma selB_true_spec {T : Type} (es : List T) :
    ∀ (ops : List Bool) (k j : Nat), k + j ≤ es.length →
      List.filterMap id (selB true ops (twoEnd es ops k j)) =
        (es.drop k).take ((ops.take (es.length - k - j)).count true) := by
  intro ops
  induction ops with
  | nil => intro k j _; simp [selB, twoEnd]
  | cons op ops ih =>
    intro k j hkj
    rw [twoEnd]
    by_cases hlt : k + j < es.length
    · have hk : k < es.length := by omega
      have hs : es.length - k - j = (es.length - k - j - 1) + 1 := by omega
      rw [if_pos hlt, hs, List.take_succ_cons]
      cases op with
      | true =>
        have h1 : (if (true : Bool) then es[k]? else es[es.length - 1 - j]?) = es[k]? := rfl
        have h2 : (if (true : Bool) then k + 1 else k) = k + 1 := rfl
        have h3 : (if (true : Bool) then j else j + 1) = j := rfl
        rw [h1, h2, h3, selB, if_pos rfl, List.getElem?_eq_getElem hk,
          List.filterMap_cons]
        simp only [id]
        rw [ih (k + 1) j (by omega),
          show es.length - (k + 1) - j = es.length - k - j - 1 from by omega]
        simp [List.count_cons]
        rw [List.drop_eq_getElem_cons hk, List.take_succ_cons]
      | false =>
        have h2 : (if (false : Bool) then k + 1 else k) = k := rfl
        have h3 : (if (false : Bool) then j else j + 1) = j + 1 := rfl
        rw [h2, h3, selB, if_neg (by simp)]
        rw [ih k (j + 1) (by omega),
          show es.length - k - (j + 1) = es.length - k - j - 1 from by omega]
        simp [List.count_cons]
    · rw [if_neg hlt]
      have hz : es.length - k - j = 0 := by omega
      rw [hz, List.take_zero]
      cases op with
      | true =>
        rw [selB, if_pos rfl, List.filterMap_cons]
        simp only [id]
        rw [ih k j hkj, hz, List.take_zero]
      | false =>
        rw [selB, if_neg (by simp)]
        rw [ih k j hkj, hz, List.take_zero]

lemma selB_false_spec {T : Type} (es : List T) :
    ∀ (ops : List Bool) (k j : Nat), k + j ≤ es.length →
      List.filterMap id (selB false ops (twoEnd es ops k j)) =
        (es.reverse.drop j).take ((ops.take (es.length - k - j)).count false) := by
  intro ops
  induction ops with
  | nil => intro k j _; simp [selB, twoEnd]
  | cons op ops ih =>
    intro k j hkj
    rw [twoEnd]
    by_cases hlt : k + j < es.length
    · have hj : j < es.length := by omega
      have hjr : j < es.reverse.length := by simpa using hj
      have hrev : es.reverse[j]? = es[es.length - 1 - j]? := by
        rw [List.getElem?_reverse hj]
      have hs : es.length - k - j = (es.length - k - j - 1) + 1 := by omega
      rw [if_pos hlt, hs, List.take_succ_cons]
      cases op with
      | false =>
        have h1 : (if (false : Bool) then es[k]? else es[es.length - 1 - j]?) =
            es[es.length - 1 - j]? := rfl
        have h2 : (if (false : Bool) then k + 1 else k) = k := rfl
        have h3 : (if (false : Bool) then j else j + 1) = j + 1 := rfl
        rw [h1, h2, h3, selB, if_pos rfl, ← hrev, List.getElem?_eq_getElem hjr,
          List.filterMap_cons]
        simp only [id]
        rw [ih k (j + 1) (by omega),
          show es.length - k - (j + 1) = es.length - k - j - 1 from by omega]
        simp [List.count_cons]
        rw [List.drop_eq_getElem_cons hjr, List.take_succ_cons]
        congr 1
        rw [List.getElem_reverse]
      | true =>
        have h2 : (if (true : Bool) then k + 1 else k) = k + 1 := rfl
        have h3 : (if (true : Bool) then j else j + 1) = j := rfl
        rw [h2, h3, selB, if_neg (by simp)]
        rw [ih (k + 1) j (by omega),
          show es.length - (k + 1) - j = es.length - k - j - 1 from by omega]
        simp [List.count_cons]
    · rw [if_neg hlt]
      have hz : es.length - k - j = 0 := by omega
      rw [hz, List.take_zero]
      cases op with
      | false =>
        rw [selB, if_pos rfl, List.filterMap_cons]
        simp only [id]
        rw [ih k j hkj, hz, List.take_zero]
      | true =>
        rw [selB, if_neg (by simp)]
        rw [ih k j hkj, hz, List.take_zero]

lemma twoEnd_after {T : Type} (es : List T) :
    ∀ (ops : List Bool) (k j t : Nat), es.length - k - j ≤ t → t < ops.length →
      (twoEnd es ops k j)[t]? = some none := by
  intro ops
  induction ops with
  | nil => intro k j t _ ht; simp at ht
  | cons op ops ih =>
    intro k j t hge ht
    rw [twoEnd]
    by_cases hlt : k + j < es.length
    · rw [if_pos hlt]
      cases t with
      | zero => omega
      | succ t' =>
        rw [List.getElem?_cons_succ]
        cases op with
        | true =>
          have h2 : (if (true : Bool) then k + 1 else k) = k + 1 := rfl
          have h3 : (if (true : Bool) then j else j + 1) = j := rfl
          rw [h2, h3]
          exact ih (k + 1) j t' (by omega) (by simpa using ht)
        | false =>
          have h2 : (if (false : Bool) then k + 1 else k) = k := rfl
          have h3 : (if (false : Bool) then j else j + 1) = j + 1 := rfl
          rw [h2, h3]
          exact ih k (j + 1) t' (by omega) (by simpa using ht)
    · rw [if_neg hlt]
      cases t with
      | zero => simp
      | succ t' =>
        rw [List.getElem?_cons_succ]
        exact ih k j t' (by omega) (by simpa using ht)

/-- Operation language for the queue/stack behaviour: `push_back`,
`push_front` and `pop_front` calls. -/
inductive QOp (T : Type) where
  | pushB (v : T)
  | pushF (v : T)
  | popF

/-- Run a sequence of operations against the heap-based list, collecting the
result of every `pop_front`. -/
def runQOps {T : Type} (m : Mem T) (l : LinkedList T) :
    List (QOp T) → Option (Mem T × LinkedList T × List (Option T))
  | [] => some (m, l, [])
  | QOp.pushB v :: ops => do
    let r ← l.push_back m v
    runQOps r.1 r.2 ops
  | QOp.pushF v :: ops => do
    let r ← l.push_front m v
    runQOps r.1 r.2 ops
  | QOp.popF :: ops => do
    let r ← l.pop_front m
    let s ← runQOps r.1 r.2.1 ops
    pure (s.1, s.2.1, r.2.2 :: s.2.2)

/-- Reference semantics over a plain Lean list: `pushB` appends, `pushF`
prepends, `popF` takes the head. -/
def runPure {T : Type} (s : List T) : List (QOp T) → List T × List (Option T)
  | [] => (s, [])
  | QOp.pushB v :: ops => runPure (s ++ [v]) ops
  | QOp.pushF v :: ops => runPure (v :: s) ops
  | QOp.popF :: ops =>
    let r := runPure s.tail ops
    (r.1, s.head? :: r.2)

lemma runQOps_spec {T : Type} :
    ∀ (ops : List (QOp T)) (m : Mem T) (l : LinkedList T) (as : List Nat) (es : List T),
      ListRepr m l as es →
      ∃ m' l' as', runQOps m l ops = some (m', l', (runPure es ops).2) ∧
        ListRepr m' l' as' (runPure es ops).1 := by
  intro ops
  induction ops with
  | nil =>
    intro m l as es h
    exact ⟨m, l, as, by simp [runQOps, runPure], h⟩
  | cons op ops ih =>
    intro m l as es h
    cases op with
    | pushB v =>
      obtain ⟨m1, l1, hstep, hrepr, _, _⟩ := push_back_repr h v
      obtain ⟨m', l', as', hrun, hrepr'⟩ := ih m1 l1 _ _ hrepr
      exact ⟨m', l', as', by simp [runQOps, hstep, hrun, runPure], hrepr'⟩
    | pushF v =>
      obtain ⟨m1, l1, hstep, hrepr, _, _⟩ := push_front_repr h v
      obtain ⟨m', l', as', hrun, hrepr'⟩ := ih m1 l1 _ _ hrepr
      exact ⟨m', l', as', by simp [runQOps, hstep, hrun, runPure], hrepr'⟩
    | popF =>
      cases as with
      | nil =>
        have hes : es = [] := by
          have := h.1.length_eq
          simpa using this
        subst hes
        have hstep := pop_front_repr_nil h
        obtain ⟨m', l', as', hrun, hrepr'⟩ := ih m l [] [] h
        exact ⟨m', l', as', by simp [runQOps, hstep, hrun, runPure], hrepr'⟩
      | cons a as₀ =>
        cases es with
        | nil =>
          have := h.1.length_eq
          simp at this
        | cons e es₀ =>
          obtain ⟨m1, l1, hstep, hrepr, _, _⟩ := pop_front_repr_cons h
          obtain ⟨m', l', as', hrun, hrepr'⟩ := ih m1 l1 _ _ hrepr
          exact ⟨m', l', as', by simp [runQOps, hstep, hrun, runPure], hrepr'⟩

/-- Concrete three-node heap: addresses 0, 1, 2 hold the chain 1 ↔ 2 ↔ 3. -/
def exMem3 : Mem Nat :=
  ⟨fun a =>
    if a = 0 then some ⟨none, some 1, 1⟩
    else if a = 1 then some ⟨some 0, some 2, 2⟩
    else if a = 2 then some ⟨some 1, none, 3⟩
    else none, 3⟩

/-- Concrete list header over `exMem3`: the list `[1, 2, 3]`. -/
def exList3 : LinkedList Nat := ⟨some 0, some 2, 3⟩

lemma exRepr3 : ListRepr exMem3 exList3 [0, 1, 2] [1, 2, 3] := by
  refine ⟨?_, rfl, by decide, by decide⟩
  simp [dlseg, exMem3, exList3, Mem.map]

/-- The empty heap. -/
def emptyMem (T : Type) : Mem T := ⟨fun _ => none, 0⟩

lemma new_repr {T : Type} (m : Mem T) : ListRepr m LinkedList.new [] [] := by
  refine ⟨?_, rfl, by simp, by simp⟩
  rw [dlseg_nil_iff]
  exact ⟨rfl, rfl, rfl⟩

/-- Concrete cursor over `exMem3`/`exList3`, at index 1 (value 2). -/
def exCur3 : CursorMut Nat := ⟨some 1, exList3, some 1⟩

lemma exCurRepr3 : CursorRepr exMem3 exCur3 [0, 1, 2] [1, 2, 3] :=
  ⟨exRepr3, Or.inr ⟨1, 1, rfl, rfl, rfl⟩⟩

/-- Concrete five-node heap holding two disjoint chains: `[1, 2, 3]` at
addresses 0–2 and `[10, 20]` at addresses 3–4. -/
def exMem5 : Mem Nat :=
  ⟨fun a =>
    if a = 0 then some ⟨none, some 1, 1⟩
    else if a = 1 then some ⟨some 0, some 2, 2⟩
    else if a = 2 then some ⟨some 1, none, 3⟩
    else if a = 3 then some ⟨none, some 4, 10⟩
    else if a = 4 then some ⟨some 3, none, 20⟩
    else none, 5⟩

/-- First list of `exMem5`: `[1, 2, 3]`. -/
def exListA : LinkedList Nat := ⟨some 0, some 2, 3⟩

/-- Second list of `exMem5`: `[10, 20]`. -/
def exListB : LinkedList Nat := ⟨some 3, some 4, 2⟩

/-- Cursor on `exListA` at index 1. -/
def exCurA : CursorMut Nat := ⟨some 1, exListA, some 1⟩

lemma exReprA : ListRepr exMem5 exListA [0, 1, 2] [1, 2, 3] := by
  refine ⟨?_, rfl, by decide, by decide⟩
  simp [dlseg, exMem5, exListA, Mem.map]

lemma exReprB : ListRepr exMem5 exListB [3, 4] [10, 20] := by
  refine ⟨?_, rfl, by decide, by decide⟩
  simp [dlseg, exMem5, exListB, Mem.map]

lemma exCurReprA : CursorRepr exMem5 exCurA [0, 1, 2] [1, 2, 3] :=
  ⟨exReprA, Or.inr ⟨1, 1, rfl, rfl, rfl⟩⟩

/-- C5: `remove_current` on a cursor at node index `i` removes that node,
returns its value, relinks the former neighbours, fixes head/tail at
boundaries, decrements `len`, and leaves the cursor at the former successor
with the same index `i` (or at the ghost when the removed node was the
tail); at the ghost it returns nothing and changes nothing. In particular on
the list `[1, 2, 3]` with the cursor at index 1 it returns 2, the list
becomes `[1, 3]`, and the cursor points at the value 3 with index 1. -/
theorem claim_C5_remove_current {T : Type} :
    (∀ (m : Mem T) (c : CursorMut T) (as : List Nat) (es : List T) (a i : Nat),
      CursorRepr m c as es → c.cur = some a → c.index = some i →
      ∃ m' c' e, c.remove_current m = some (m', c', some e) ∧ es[i]? = some e ∧
        c'.cur = as[i + 1]? ∧
        c'.index = (if i + 1 < as.length then some i else none) ∧
        CursorRepr m' c' (as.take i ++ as.drop (i + 1))
          (es.take i ++ es.drop (i + 1)) ∧
        c'.list.len = c.list.len - 1) ∧
    (∀ (m : Mem T) (c : CursorMut T), c.cur = none →
      c.remove_current m = some (m, c, none)) ∧
    (∃ m' c', exCur3.remove_current exMem3 = some (m', c', some 2) ∧
      c'.index = some 1 ∧ c'.list.seq m' = some [1, 3] ∧
      ∃ nd, c'.cur = some 2 ∧ m'.map 2 = some nd ∧ nd.elem = 3) := by
  refine ⟨?_, ?_, ?_⟩
  · intro m c as es a i h hc hi
    obtain ⟨m', c', e, h1, h2, h3, h4, h5, h6, _⟩ := remove_current_at_spec h hc hi
    exact ⟨m', c', e, h1, h2, h3, h4, h5, h6⟩
  · intro m c hc
    exact remove_current_ghost_spec m c hc
  · refine ⟨_, _, rfl, rfl, ?_, ⟨_, rfl, rfl, rfl⟩⟩
    decide

/-- C6: the cursor follows the ghost/At state machine: a fresh cursor is at
the ghost; `move_next` from the ghost lands on the head (index 0) when the
list is non-empty and stays otherwise; from a node it moves to the successor
with index `i + 1`, or to the ghost past the tail; `move_prev` is the exact
mirror through predecessors and the tail with index `i - 1`. -/
theorem claim_C6_cursor_state_machine {T : Type} :
    (∀ l : LinkedList T, (l.cursor_mut).cur = none ∧ (l.cursor_mut).index = none) ∧
    (∀ (m : Mem T) (c : CursorMut T) (as : List Nat) (es : List T),
      CursorRepr m c as es →
      (∃ c', c.move_next m = some c' ∧ c'.list = c.list ∧
        ((c.cur = none ∧ as = [] ∧ c' = c) ∨
         (c.cur = none ∧ as ≠ [] ∧ c'.cur = as[0]? ∧ c'.index = some 0) ∨
         (∃ a i, c.cur = some a ∧ c.index = some i ∧
           c'.cur = as[i + 1]? ∧
           c'.index = (if i + 1 < as.length then some (i + 1) else none)))) ∧
      (∃ c', c.move_prev m = some c' ∧ c'.list = c.list ∧
        ((c.cur = none ∧ as = [] ∧ c' = c) ∨
         (c.cur = none ∧ as ≠ [] ∧ c'.cur = as[as.length - 1]? ∧
           c'.index = some (as.length - 1)) ∨
         (∃ a i, c.cur = some a ∧ c.index = some i ∧
           c'.cur = (if i = 0 then none else as[i - 1]?) ∧
           c'.index = (if i = 0 then none else some (i - 1)))))) := by
  refine ⟨fun l => ⟨rfl, rfl⟩, ?_⟩
  intro m c as es h
  constructor
  · obtain ⟨c', h1, h2, h3, _⟩ := move_next_spec h
    exact ⟨c', h1, h2, h3⟩
  · obtain ⟨c', h1, h2, h3, _⟩ := move_prev_spec h
    exact ⟨c', h1, h2, h3⟩

/-- C10: every cursor operation preserves the cursor invariant — `cur` and
`index` absent together, or `index` within bounds with `cur` at the
`index`-th node — and under that invariant none of the internal unwraps or
`usize` subtractions in `move_next`, `move_prev`, `split_before`,
`split_after`, `splice_before`, `splice_after` or `remove_current` can fail:
each operation returns a defined result on a well-formed cursor. -/
theorem claim_C10_cursor_invariant {T : Type} :
    (∀ (m : Mem T) (c : CursorMut T) (as : List Nat) (es : List T),
      CursorRepr m c as es →
      (∃ c', c.move_next m = some c' ∧ CursorRepr m c' as es) ∧
      (∃ c', c.move_prev m = some c' ∧ CursorRepr m c' as es) ∧
      (∃ m' c' r, c.split_before m = some (m', c', r) ∧
        ∃ as' es', CursorRepr m' c' as' es') ∧
      (∃ m' c' r, c.split_after m = some (m', c', r) ∧
        ∃ as' es', CursorRepr m' c' as' es') ∧
      (∃ m' c' r, c.remove_current m = some (m', c', r) ∧
        ∃ as' es', CursorRepr m' c' as' es')) ∧
    (∀ (m : Mem T) (c : CursorMut T) (as : List Nat) (es : List T)
        (input : LinkedList T) (bs : List Nat) (fs : List T),
      CursorRepr m c as es → ListRepr m input bs fs → as.Disjoint bs →
      (∃ m' c' r, c.splice_before m input = some (m', c', r) ∧
        ∃ as' es', CursorRepr m' c' as' es') ∧
      (∃ m' c' r, c.splice_after m input = some (m', c', r) ∧
        ∃ as' es', CursorRepr m' c' as' es')) := by
  constructor
  · intro m c as es h
    refine ⟨?_, ?_, ?_, ?_, ?_⟩
    · obtain ⟨c', h1, _, _, h4⟩ := move_next_spec h
      exact ⟨c', h1, h4⟩
    · obtain ⟨c', h1, _, _, h4⟩ := move_prev_spec h
      exact ⟨c', h1, h4⟩
    · rcases hcc : c.cur with _ | a
      · obtain ⟨h1, h2, _⟩ := split_before_ghost_spec h hcc
        exact ⟨_, _, _, h1, [], [], h2⟩
      · obtain ⟨i, hi⟩ : ∃ i, c.index = some i := by
          rcases h.2 with ⟨hg, _⟩ | ⟨a', i', hc', hi', _⟩
          · rw [hcc] at hg
            exact absurd hg (by simp)
          · exact ⟨i', hi'⟩
        obtain ⟨m', c', r, h1, _, _, h4, _⟩ := split_before_at_spec h hcc hi
        exact ⟨m', c', r, h1, _, _, h4⟩
    · rcases hcc : c.cur with _ | a
      · obtain ⟨h1, h2, _⟩ := split_after_ghost_spec h hcc
        exact ⟨_, _, _, h1, [], [], h2⟩
      · obtain ⟨i, hi⟩ : ∃ i, c.index = some i := by
          rcases h.2 with ⟨hg, _⟩ | ⟨a', i', hc', hi', _⟩
          · rw [hcc] at hg
            exact absurd hg (by simp)
          · exact ⟨i', hi'⟩
        obtain ⟨m', c', r, h1, _, _, h4, _⟩ := split_after_at_spec h hcc hi
        exact ⟨m', c', r, h1, _, _, h4⟩
    · rcases hcc : c.cur with _ | a
      · exact ⟨m, c, none, remove_current_ghost_spec m c hcc, as, es, h⟩
      · obtain ⟨i, hi⟩ : ∃ i, c.index = some i := by
          rcases h.2 with ⟨hg, _⟩ | ⟨a', i', hc', hi', _⟩
          · rw [hcc] at hg
            exact absurd hg (by simp)
          · exact ⟨i', hi'⟩
        obtain ⟨m', c', e, h1, _, _, _, h5, _⟩ := remove_current_at_spec h hcc hi
        exact ⟨m', c', some e, h1, _, _, h5⟩
  · intro m c as es input bs fs h hin hdisj
    by_cases h0 : input.len = 0
    · refine ⟨⟨m, c, input, splice_before_empty_spec m c h0, as, es, h⟩,
        ⟨m, c, input, splice_after_empty_spec m c h0, as, es, h⟩⟩
    · constructor
      · rcases hcc : c.cur with _ | a
        · obtain ⟨m', c', h1, _, _, h4, _⟩ := splice_before_ghost_spec h hcc hin h0 hdisj
          exact ⟨m', c', _, h1, _, _, h4⟩
        · obtain ⟨i, hi⟩ : ∃ i, c.index = some i := by
            rcases h.2 with ⟨hg, _⟩ | ⟨a', i', hc', hi', _⟩
            · rw [hcc] at hg
              exact absurd hg (by simp)
            · exact ⟨i', hi'⟩
          obtain ⟨m', c', h1, _, _, h4, _⟩ := splice_before_at_spec h hcc hi hin h0 hdisj
          exact ⟨m', c', _, h1, _, _, h4⟩
      · rcases hcc : c.cur with _ | a
        · obtain ⟨m', c', h1, _, _, h4, _⟩ := splice_after_ghost_spec h hcc hin h0 hdisj
          exact ⟨m', c', _, h1, _, _, h4⟩
        · obtain ⟨i, hi⟩ : ∃ i, c.index = some i := by
            rcases h.2 with ⟨hg, _⟩ | ⟨a', i', hc', hi', _⟩
            · rw [hcc] at hg
              exact absurd hg (by simp)
            · exact ⟨i', hi'⟩
          obtain ⟨m', c', h1, _, _, h4, _⟩ := splice_after_at_spec h hcc hi hin h0 hdisj
          exact ⟨m', c', _, h1, _, _, h4⟩

/-- C2: for every well-formed list and cursor position — any node index, and
also the ghost — `split_after` immediately followed by `splice_after` of the
returned list restores the original element sequence and the original
length. -/
theorem claim_C2_split_splice_inverse {T : Type} (m : Mem T) (c : CursorMut T)
    (as : List Nat) (es : List T) (h : CursorRepr m c as es) :
    ∃ m1 c1 r m2 c2 rr,
      c.split_after m = some (m1, c1, r) ∧
      c1.splice_after m1 r = some (m2, c2, rr) ∧
      ∃ as2, CursorRepr m2 c2 as2 es ∧ c2.list.len = c.list.len := by
  have hlen := h.1.2.1
  have hlenes := h.1.1.length_eq
  rcases hcc : c.cur with _ | a
  · obtain ⟨h1, h2, h3⟩ := split_after_ghost_spec h hcc
    by_cases h0 : c.list.len = 0
    · have hes : es = [] := by
        have : as = [] := by
          have := hlen
          rw [h0] at this
          exact (List.eq_nil_of_length_eq_zero this.symm)
        subst this
        exact List.eq_nil_of_length_eq_zero (by omega)
      have hstep2 :=
        @splice_after_empty_spec T m { c with list := LinkedList.new } c.list h0
      refine ⟨m, _, c.list, m, _, c.list, h1, hstep2, [], ?_, ?_⟩
      · rw [hes]
        exact h2
      · show LinkedList.new.len = c.list.len
        rw [h0]
        rfl
    · obtain ⟨m', c', hsp, _, _, hrep', hlen', _⟩ :=
        splice_after_ghost_spec h2 hcc h3 h0 (by simp)
      refine ⟨m, _, c.list, m', c', ⟨none, none, 0⟩, h1, hsp, as, ?_, ?_⟩
      · simpa using hrep'
      · rw [hlen']
        show LinkedList.new.len + c.list.len = c.list.len
        simp [LinkedList.new]
  · obtain ⟨i, hi⟩ : ∃ i, c.index = some i := by
      rcases h.2 with ⟨hg, _⟩ | ⟨a', i', hc', hi', _⟩
      · rw [hcc] at hg
        exact absurd hg (by simp)
      · exact ⟨i', hi'⟩
    have hia : as[i]? = some a := by
      rcases h.2 with ⟨hg, _⟩ | ⟨a', i', hc', hi', hia'⟩
      · rw [hcc] at hg
        exact absurd hg (by simp)
      · rw [hcc] at hc'
        rw [hi] at hi'
        obtain rfl : a' = a := by simpa using hc'.symm
        obtain rfl : i' = i := by simpa using hi'.symm
        exact hia'
    have hilen : i < as.length := (List.getElem?_eq_some.mp hia).1
    obtain ⟨m1, c1, r, h1, hcur1, hidx1, hrep1, hreprr, hlenc1, hlenr, _⟩ :=
      split_after_at_spec h hcc hi
    have htakeA : (as.take (i + 1)).length = i + 1 := by
      rw [List.length_take]
      omega
    by_cases hr0 : r.len = 0
    · have hge : as.length = i + 1 := by omega
      have hstep2 := @splice_after_empty_spec T m1 c1 r hr0
      refine ⟨m1, c1, r, m1, c1, r, h1, hstep2, as.take (i + 1), ?_, ?_⟩
      · have : es.take (i + 1) = es := List.take_of_length_le (by omega)
        rw [← this]
        exact hrep1
      · omega
    · have hdisjtd : (as.take (i + 1)).Disjoint (as.drop (i + 1)) :=
        List.disjoint_take_drop h.1.2.2.1 le_rfl
      have hcurA : (as.take (i + 1))[i]? = some a := by
        rw [List.getElem?_take, if_pos (by omega)]
        exact hia
      obtain ⟨m2, c2, hsp, _, _, hrep2, hlen2, _⟩ :=
        splice_after_at_spec hrep1 hcur1 hidx1 hreprr hr0 hdisjtd
      refine ⟨m1, c1, r, m2, c2, ⟨none, none, 0⟩, h1, hsp, as, ?_, ?_⟩
      · have e1 : (as.take (i + 1)).take (i + 1) = as.take (i + 1) :=
          List.take_of_length_le (by omega)
        have e2 : (as.take (i + 1)).drop (i + 1) = [] := by
          rw [List.drop_eq_nil_iff]
          omega
        have e3 : (es.take (i + 1)).take (i + 1) = es.take (i + 1) :=
          List.take_of_length_le (by simp)
        have e4 : (es.take (i + 1)).drop (i + 1) = [] := by
          rw [List.drop_eq_nil_iff]
          simp
        rw [e1, e2, e3, e4, List.append_nil, List.append_nil] at hrep2
        rw [List.take_append_drop, List.take_append_drop] at hrep2
        exact hrep2
      · rw [hlen2]
        omega

/-- C3: splicing an empty list is a no-op on memory, cursor, and the input;
splicing a non-empty list at a node inserts its sequence immediately before
(resp. after) the cursor position, at the ghost it appends (resp. prepends),
the length grows by exactly `other.len`, and the input list is returned
emptied (len 0, representing no elements). -/
theorem claim_C3_splice_semantics {T : Type} :
    (∀ (m : Mem T) (c : CursorMut T) (other : LinkedList T), other.len = 0 →
      c.splice_before m other = some (m, c, other) ∧
      c.splice_after m other = some (m, c, other)) ∧
    (∀ (m : Mem T) (c : CursorMut T) (as bs : List Nat) (es fs : List T)
        (a i : Nat) (other : LinkedList T),
      CursorRepr m c as es → c.cur = some a → c.index = some i →
      ListRepr m other bs fs → other.len ≠ 0 → as.Disjoint bs →
      (∃ m' c' rr, c.splice_before m other = some (m', c', rr) ∧
        rr.len = 0 ∧ ListRepr m' rr [] [] ∧
        CursorRepr m' c' (as.take i ++ bs ++ as.drop i)
          (es.take i ++ fs ++ es.drop i) ∧
        c'.list.len = c.list.len + other.len) ∧
      (∃ m' c' rr, c.splice_after m other = some (m', c', rr) ∧
        rr.len = 0 ∧ ListRepr m' rr [] [] ∧
        CursorRepr m' c' (as.take (i + 1) ++ bs ++ as.drop (i + 1))
          (es.take (i + 1) ++ fs ++ es.drop (i + 1)) ∧
        c'.list.len = c.list.len + other.len)) ∧
    (∀ (m : Mem T) (c : CursorMut T) (as bs : List Nat) (es fs : List T)
        (other : LinkedList T),
      CursorRepr m c as es → c.cur = none →
      ListRepr m other bs fs → other.len ≠ 0 → as.Disjoint bs →
      (∃ m' c' rr, c.splice_before m other = some (m', c', rr) ∧
        rr.len = 0 ∧ ListRepr m' rr [] [] ∧
        CursorRepr m' c' (as ++ bs) (es ++ fs) ∧
        c'.list.len = c.list.len + other.len) ∧
      (∃ m' c' rr, c.splice_after m other = some (m', c', rr) ∧
        rr.len = 0 ∧ ListRepr m' rr [] [] ∧
        CursorRepr m' c' (bs ++ as) (fs ++ es) ∧
        c'.list.len = c.list.len + other.len)) := by
  refine ⟨?_, ?_, ?_⟩
  · intro m c other h0
    exact ⟨splice_before_empty_spec m c h0, splice_after_empty_spec m c h0⟩
  · intro m c as bs es fs a i other h hc hi hin h0 hdisj
    constructor
    · obtain ⟨m', c', h1, _, _, h4, h5, _⟩ := splice_before_at_spec h hc hi hin h0 hdisj
      exact ⟨m', c', _, h1, rfl, new_repr m', h4, h5⟩
    · obtain ⟨m', c', h1, _, _, h4, h5, _⟩ := splice_after_at_spec h hc hi hin h0 hdisj
      exact ⟨m', c', _, h1, rfl, new_repr m', h4, h5⟩
  · intro m c as bs es fs other h hc hin h0 hdisj
    constructor
    · obtain ⟨m', c', h1, _, _, h4, h5, _⟩ := splice_before_ghost_spec h hc hin h0 hdisj
      exact ⟨m', c', _, h1, rfl, new_repr m', h4, h5⟩
    · obtain ⟨m', c', h1, _, _, h4, h5, _⟩ := splice_after_ghost_spec h hc hin h0 hdisj
      exact ⟨m', c', _, h1, rfl, new_repr m', h4, h5⟩

/-- C4: with the cursor at node index i in a list of length n, `split_before`
detaches the first i elements (cursor moves to index 0 of the remainder of
length n - i) and `split_after` detaches the last n - i - 1 elements (cursor
stays at index i of the prefix of length i + 1); at the ghost both detach the
whole list, leaving the original empty. -/
theorem claim_C4_split_partition {T : Type} :
    (∀ (m : Mem T) (c : CursorMut T) (as : List Nat) (es : List T) (a i : Nat),
      CursorRepr m c as es → c.cur = some a → c.index = some i →
      (∃ m' c' r, c.split_before m = some (m', c', r) ∧
        ListRepr m' r (as.take i) (es.take i) ∧ r.len = i ∧
        CursorRepr m' c' (as.drop i) (es.drop i) ∧
        c'.cur = some a ∧ c'.index = some 0 ∧
        c'.list.len = as.length - i) ∧
      (∃ m' c' r, c.split_after m = some (m', c', r) ∧
        ListRepr m' r (as.drop (i + 1)) (es.drop (i + 1)) ∧
        r.len = as.length - (i + 1) ∧
        CursorRepr m' c' (as.take (i + 1)) (es.take (i + 1)) ∧
        c'.cur = some a ∧ c'.index = some i ∧
        c'.list.len = i + 1)) ∧
    (∀ (m : Mem T) (c : CursorMut T) (as : List Nat) (es : List T),
      CursorRepr m c as es → c.cur = none →
      (c.split_before m = some (m, { c with list := LinkedList.new }, c.list) ∧
        ListRepr m c.list as es ∧
        CursorRepr m { c with list := LinkedList.new } [] []) ∧
      (c.split_after m = some (m, { c with list := LinkedList.new }, c.list) ∧
        ListRepr m c.list as es ∧
        CursorRepr m { c with list := LinkedList.new } [] [])) := by
  constructor
  · intro m c as es a i h hc hi
    constructor
    · obtain ⟨m', c', r, h1, h2, h3, h4, h5, h6, h7, _⟩ := split_before_at_spec h hc hi
      exact ⟨m', c', r, h1, h5, h7, h4, h2, h3, h6⟩
    · obtain ⟨m', c', r, h1, h2, h3, h4, h5, h6, h7, _⟩ := split_after_at_spec h hc hi
      exact ⟨m', c', r, h1, h5, h7, h4, h2, h3, h6⟩
  · intro m c as es h hc
    obtain ⟨hb1, hb2, hb3⟩ := split_before_ghost_spec h hc
    obtain ⟨ha1, ha2, ha3⟩ := split_after_ghost_spec h hc
    exact ⟨⟨hb1, hb3, hb2⟩, ⟨ha1, ha3, ha2⟩⟩

/-- The structural invariants of claim C1, read off a list header and the
address sequence of its nodes. -/
def StructInv {T : Type} (m : Mem T) (l : LinkedList T) (as : List Nat) : Prop :=
  (l.len = 0 ↔ l.head = none) ∧
  (l.len = 0 ↔ l.tail = none) ∧
  (l.len = 1 ↔ (l.head ≠ none ∧ l.head = l.tail)) ∧
  iterNextN m l.len l.head = some none ∧
  iterPrevN m l.len l.tail = some none ∧
  (∀ i a b, as[i]? = some a → as[i + 1]? = some b →
    ∃ ndA ndB, m.map a = some ndA ∧ m.map b = some ndB ∧
      ndA.next = some b ∧ ndB.prev = some a)

lemma ListRepr.structInv {T : Type} {m : Mem T} {l : LinkedList T}
    {as : List Nat} {es : List T} (h : ListRepr m l as es) : StructInv m l as := by
  refine ⟨h.head_none_iff, h.tail_none_iff, h.len_one_iff, ?_, ?_, ?_⟩
  · rw [h.2.1]
    exact h.1.iterNextN_eq
  · rw [h.2.1]
    exact h.1.iterPrevN_eq
  · intro i a b hia hib
    have hlb : i + 1 < as.length := (List.getElem?_eq_some.mp hib).1
    obtain ⟨ndA, hndA, _, hnxA, _⟩ := h.1.get i a hia
    obtain ⟨ndB, hndB, _, _, hpvB⟩ := h.1.get (i + 1) b hib
    refine ⟨ndA, ndB, hndA, hndB, ?_, ?_⟩
    · rw [hnxA, if_pos hlb, hib]
    · rw [hpvB, if_neg (Nat.succ_ne_zero i)]
      simpa using hia

lemma CursorRepr.at_node {T : Type} {m : Mem T} {c : CursorMut T}
    {as : List Nat} {es : List T} {a : Nat}
    (h : CursorRepr m c as es) (hc : c.cur = some a) :
    ∃ i, c.index = some i ∧ as[i]? = some a := by
  rcases h.2 with ⟨hg, _⟩ | ⟨a', i', hc', hi', hia'⟩
  · rw [hc] at hg
    exact absurd hg (by simp)
  · rw [hc] at hc'
    obtain rfl : a' = a := by simpa using hc'.symm
    exact ⟨i', hi', hia'⟩

/-- C1: a well-formed list satisfies the structural invariants (len 0 iff no
head iff no tail, len 1 iff head and tail coincide on a node, following next
len times from head reaches absent and symmetrically for prev from tail,
adjacent nodes are doubly linked), and every operation — new, push_front,
push_back, pop_front, pop_back, clear, split_before, split_after,
splice_before, splice_after, remove_current — produces only well-formed
lists. -/
theorem claim_C1_structural_invariants {T : Type} :
    (∀ (m : Mem T) (l : LinkedList T) (as : List Nat) (es : List T),
      ListRepr m l as es → StructInv m l as) ∧
    (∀ m : Mem T, ListRepr m (LinkedList.new : LinkedList T) [] []) ∧
    (∀ (m : Mem T) (l : LinkedList T) (as : List Nat) (es : List T) (v : T),
      ListRepr m l as es → ∃ m' l', l.push_front m v = some (m', l') ∧
        ListRepr m' l' (m.nextAddr :: as) (v :: es)) ∧
    (∀ (m : Mem T) (l : LinkedList T) (as : List Nat) (es : List T) (v : T),
      ListRepr m l as es → ∃ m' l', l.push_back m v = some (m', l') ∧
        ListRepr m' l' (as ++ [m.nextAddr]) (es ++ [v])) ∧
    (∀ (m : Mem T) (l : LinkedList T) (as : List Nat) (es : List T),
      ListRepr m l as es → ∃ m' l' r as' es', l.pop_front m = some (m', l', r) ∧
        ListRepr m' l' as' es') ∧
    (∀ (m : Mem T) (l : LinkedList T) (as : List Nat) (es : List T),
      ListRepr m l as es → ∃ m' l' r as' es', l.pop_back m = some (m', l', r) ∧
        ListRepr m' l' as' es') ∧
    (∀ (m : Mem T) (l : LinkedList T) (as : List Nat) (es : List T),
      ListRepr m l as es → ∃ m' l', l.clear m = some (m', l') ∧
        ListRepr m' l' [] []) ∧
    (∀ (m : Mem T) (c : CursorMut T) (as : List Nat) (es : List T),
      CursorRepr m c as es → ∃ m' c' r as1 es1 as2 es2,
        c.split_before m = some (m', c', r) ∧
        ListRepr m' c'.list as1 es1 ∧ ListRepr m' r as2 es2) ∧
    (∀ (m : Mem T) (c : CursorMut T) (as : List Nat) (es : List T),
      CursorRepr m c as es → ∃ m' c' r as1 es1 as2 es2,
        c.split_after m = some (m', c', r) ∧
        ListRepr m' c'.list as1 es1 ∧ ListRepr m' r as2 es2) ∧
    (∀ (m : Mem T) (c : CursorMut T) (as bs : List Nat) (es fs : List T)
        (other : LinkedList T),
      CursorRepr m c as es → ListRepr m other bs fs → as.Disjoint bs →
      ∃ m' c' rr as' es', c.splice_before m other = some (m', c', rr) ∧
        ListRepr m' c'.list as' es') ∧
    (∀ (m : Mem T) (c : CursorMut T) (as bs : List Nat) (es fs : List T)
        (other : LinkedList T),
      CursorRepr m c as es → ListRepr m other bs fs → as.Disjoint bs →
      ∃ m' c' rr as' es', c.splice_after m other = some (m', c', rr) ∧
        ListRepr m' c'.list as' es') ∧
    (∀ (m : Mem T) (c : CursorMut T) (as : List Nat) (es : List T),
      CursorRepr m c as es → ∃ m' c' r as' es',
        c.remove_current m = some (m', c', r) ∧
        ListRepr m' c'.list as' es') := by
  refine ⟨?_, ?_, ?_, ?_, ?_, ?_, ?_, ?_, ?_, ?_, ?_, ?_⟩
  · intro m l as es h
    exact h.structInv
  · intro m
    exact new_repr m
  · intro m l as es v h
    obtain ⟨m', l', h1, h2, _⟩ := push_front_repr h v
    exact ⟨m', l', h1, h2⟩
  · intro m l as es v h
    obtain ⟨m', l', h1, h2, _⟩ := push_back_repr h v
    exact ⟨m', l', h1, h2⟩
  · intro m l as es h
    match as, es, h.1.length_eq with
    | [], [], _ =>
      exact ⟨m, l, none, [], [], pop_front_repr_nil h, h⟩
    | a :: as', e :: es', _ =>
      obtain ⟨m', l', h1, h2, _⟩ := pop_front_repr_cons h
      exact ⟨m', l', some e, as', es', h1, h2⟩
  · intro m l as es h
    rcases List.eq_nil_or_concat as with rfl | ⟨as₀, a, hA⟩
    · have hes : es = [] := List.eq_nil_of_length_eq_zero (by simpa using h.1.length_eq)
      subst hes
      exact ⟨m, l, none, [], [], pop_back_repr_nil h, h⟩
    · simp only [List.concat_eq_append] at hA
      subst hA
      have hne : es ≠ [] := by
        intro hnil
        have := h.1.length_eq
        rw [hnil] at this
        simp at this
      have hes : es.dropLast ++ [es.getLast hne] = es := List.dropLast_append_getLast hne
      rw [← hes] at h
      obtain ⟨m', l', h1, h2, _⟩ := pop_back_repr_snoc h
      exact ⟨m', l', some (es.getLast hne), as₀, es.dropLast, h1, h2⟩
  · intro m l as es h
    obtain ⟨m', l', h1, h2, _⟩ := clear_repr h
    exact ⟨m', l', h1, h2⟩
  · intro m c as es h
    rcases hcc : c.cur with _ | a
    · obtain ⟨h1, h2, h3⟩ := split_before_ghost_spec h hcc
      exact ⟨m, _, c.list, [], [], as, es, h1, h2.1, h3⟩
    · obtain ⟨i, hi, _⟩ := h.at_node hcc
      obtain ⟨m', c', r, h1, _, _, h4, h5, _⟩ := split_before_at_spec h hcc hi
      exact ⟨m', c', r, _, _, _, _, h1, h4.1, h5⟩
  · intro m c as es h
    rcases hcc : c.cur with _ | a
    · obtain ⟨h1, h2, h3⟩ := split_after_ghost_spec h hcc
      exact ⟨m, _, c.list, [], [], as, es, h1, h2.1, h3⟩
    · obtain ⟨i, hi, _⟩ := h.at_node hcc
      obtain ⟨m', c', r, h1, _, _, h4, h5, _⟩ := split_after_at_spec h hcc hi
      exact ⟨m', c', r, _, _, _, _, h1, h4.1, h5⟩
  · intro m c as bs es fs other h hin hdisj
    by_cases h0 : other.len = 0
    · exact ⟨m, c, other, as, es, splice_before_empty_spec m c h0, h.1⟩
    · rcases hcc : c.cur with _ | a
      · obtain ⟨m', c', h1, _, _, h4, _⟩ := splice_before_ghost_spec h hcc hin h0 hdisj
        exact ⟨m', c', _, _, _, h1, h4.1⟩
      · obtain ⟨i, hi, _⟩ := h.at_node hcc
        obtain ⟨m', c', h1, _, _, h4, _⟩ := splice_before_at_spec h hcc hi hin h0 hdisj
        exact ⟨m', c', _, _, _, h1, h4.1⟩
  · intro m c as bs es fs other h hin hdisj
    by_cases h0 : other.len = 0
    · exact ⟨m, c, other, as, es, splice_after_empty_spec m c h0, h.1⟩
    · rcases hcc : c.cur with _ | a
      · obtain ⟨m', c', h1, _, _, h4, _⟩ := splice_after_ghost_spec h hcc hin h0 hdisj
        exact ⟨m', c', _, _, _, h1, h4.1⟩
      · obtain ⟨i, hi, _⟩ := h.at_node hcc
        obtain ⟨m', c', h1, _, _, h4, _⟩ := splice_after_at_spec h hcc hi hin h0 hdisj
        exact ⟨m', c', _, _, _, h1, h4.1⟩
  · intro m c as es h
    rcases hcc : c.cur with _ | a
    · exact ⟨m, c, none, as, es, remove_current_ghost_spec m c hcc, h.1⟩
    · obtain ⟨i, hi, _⟩ := h.at_node hcc
      obtain ⟨m', c', e, h1, _, _, _, h5, _⟩ := remove_current_at_spec h hcc hi
      exact ⟨m', c', some e, _, _, h1, h5.1⟩

lemma count_true_add_count_false (l : List Bool) :
    l.count true + l.count false = l.length := by
  induction l with
  | nil => rfl
  | cons b l ih =>
    cases b
    · simp only [List.count_cons, List.length_cons]
      simp
      omega
    · simp only [List.count_cons, List.length_cons]
      simp
      omega

/-- C7: running any interleaving of next (true) and next_back (false) calls
over the iterator of a well-formed list matches the pure two-pointer
reference `twoEnd`; the next calls yield a prefix of the sequence in order,
the next_back calls a prefix of the reversed sequence, once enough calls
are made the two ends together yield every element exactly once (their
concatenation is the sequence itself), and all calls after the length is
exhausted return absent. -/
theorem claim_C7_double_ended_iterator {T : Type} (m : Mem T) (l : LinkedList T)
    (as : List Nat) (es : List T) (ops : List Bool) (h : ListRepr m l as es) :
    (∃ it', iterRun m ops l.iter = some (twoEnd es ops 0 0, it')) ∧
    List.filterMap id (selB true ops (twoEnd es ops 0 0)) =
      es.take ((ops.take es.length).count true) ∧
    List.filterMap id (selB false ops (twoEnd es ops 0 0)) =
      es.reverse.take ((ops.take es.length).count false) ∧
    (es.length ≤ ops.length →
      List.filterMap id (selB true ops (twoEnd es ops 0 0)) ++
        (List.filterMap id (selB false ops (twoEnd es ops 0 0))).reverse = es) ∧
    (∀ t, es.length ≤ t → t < ops.length → (twoEnd es ops 0 0)[t]? = some none) := by
  have hlen := h.1.length_eq
  have htrue := selB_true_spec es ops 0 0 (by omega)
  have hfalse := selB_false_spec es ops 0 0 (by omega)
  simp only [List.drop_zero, Nat.sub_zero] at htrue hfalse
  refine ⟨?_, htrue, hfalse, ?_, ?_⟩
  · refine iterRun_inv h ops 0 0 l.iter (by omega) ?_ ?_
    · show l.len = as.length - 0 - 0
      rw [h.2.1]
      omega
    · intro _
      refine ⟨h.head_eq, ?_⟩
      show l.tail = as[as.length - 1 - 0]?
      simpa using h.tail_eq
  · intro hle
    set ct := (ops.take es.length).count true with hct
    set cf := (ops.take es.length).count false with hcf
    have hsum : ct + cf = es.length := by
      have := count_true_add_count_false (ops.take es.length)
      rw [List.length_take] at this
      omega
    rw [htrue, hfalse]
    have hrev : (es.reverse.take cf).reverse = es.drop ct := by
      rw [List.take_reverse, List.reverse_reverse]
      congr 1
      omega
    rw [hrev, List.take_append_drop]
  · intro t h1 h2
    exact twoEnd_after es ops 0 0 t (by omega) h2

lemma runPure_pushB_append {T : Type} (vs : List T) :
    ∀ (s : List T) (ops : List (QOp T)),
      runPure s (vs.map QOp.pushB ++ ops) = runPure (s ++ vs) ops := by
  induction vs with
  | nil => intro s ops; simp
  | cons v vs ih =>
    intro s ops
    simp only [List.map_cons, List.cons_append, runPure, List.append_eq]
    rw [ih]
    simp

lemma runPure_pushF_append {T : Type} (vs : List T) :
    ∀ (s : List T) (ops : List (QOp T)),
      runPure s (vs.map QOp.pushF ++ ops) = runPure (vs.reverse ++ s) ops := by
  induction vs with
  | nil => intro s ops; simp
  | cons v vs ih =>
    intro s ops
    simp only [List.map_cons, List.cons_append, runPure, List.append_eq]
    rw [ih]
    simp

lemma runPure_popF_all {T : Type} (s : List T) :
    runPure s (List.replicate s.length QOp.popF) = ([], s.map some) := by
  induction s with
  | nil => rfl
  | cons a s ih =>
    simp only [List.length_cons, List.replicate_succ, runPure, List.tail_cons,
      List.head?_cons]
    simp [ih]

/-- C8: starting from the empty list, any sequence of push_back, push_front
and pop_front operations behaves as the pure sequence model (pushB appends,
pushF prepends, popF takes the head); in particular pushing values with
push_back and popping them all yields them in FIFO order, pushing with
push_front and popping yields them in LIFO (reversed) order, and pop_front
on the empty list returns absent. -/
theorem claim_C8_fifo_lifo {T : Type} :
    (∀ (ops : List (QOp T)) (m : Mem T),
      ∃ m' l' as', runQOps m LinkedList.new ops = some (m', l', (runPure [] ops).2) ∧
        ListRepr m' l' as' (runPure [] ops).1) ∧
    (∀ (vs : List T) (m : Mem T),
      ∃ m' l' as',
        runQOps m LinkedList.new
            (vs.map QOp.pushB ++ List.replicate vs.length QOp.popF) =
          some (m', l', vs.map some) ∧ ListRepr m' l' as' []) ∧
    (∀ (vs : List T) (m : Mem T),
      ∃ m' l' as',
        runQOps m LinkedList.new
            (vs.map QOp.pushF ++ List.replicate vs.length QOp.popF) =
          some (m', l', vs.reverse.map some) ∧ ListRepr m' l' as' []) ∧
    (∀ m : Mem T, LinkedList.new.pop_front m = some (m, LinkedList.new, none)) := by
  refine ⟨?_, ?_, ?_, ?_⟩
  · intro ops m
    exact runQOps_spec ops m LinkedList.new [] [] (new_repr m)
  · intro vs m
    have hpure : runPure ([] : List T)
        (vs.map QOp.pushB ++ List.replicate vs.length QOp.popF) = ([], vs.map some) := by
      rw [runPure_pushB_append, List.nil_append]
      have := runPure_popF_all vs
      exact this
    obtain ⟨m', l', as', h1, h2⟩ :=
      runQOps_spec (vs.map QOp.pushB ++ List.replicate vs.length QOp.popF)
        m LinkedList.new [] [] (new_repr m)
    rw [hpure] at h1 h2
    exact ⟨m', l', as', h1, h2⟩
  · intro vs m
    have hpure : runPure ([] : List T)
        (vs.map QOp.pushF ++ List.replicate vs.length QOp.popF) =
          ([], vs.reverse.map some) := by
      rw [runPure_pushF_append, List.append_nil]
      have h1 := runPure_popF_all vs.reverse
      rw [List.length_reverse] at h1
      exact h1
    obtain ⟨m', l', as', h1, h2⟩ :=
      runQOps_spec (vs.map QOp.pushF ++ List.replicate vs.length QOp.popF)
        m LinkedList.new [] [] (new_repr m)
    rw [hpure] at h1 h2
    exact ⟨m', l', as', h1, h2⟩
  · intro m
    exact pop_front_repr_nil (new_repr m)

/-- C9: on well-formed lists, equality compares the drained element
sequences — true exactly when the sequences are equal, i.e. same length and
pairwise-equal elements in order; total and partial comparison return the
lexicographic elementwise comparison of the sequences; and the hash trace
feeds the length first and then the elements in iteration order. -/
theorem claim_C9_eq_ord_hash {T : Type} [DecidableEq T]
    (m1 m2 : Mem T) (l1 l2 : LinkedList T) (as1 as2 : List Nat)
    (es1 es2 : List T) (cmp : T → T → Ordering) (pc : T → T → Option Ordering)
    (h1 : ListRepr m1 l1 as1 es1) (h2 : ListRepr m2 l2 as2 es2) :
    LinkedList.eqImpl m1 l1 m2 l2 = some (decide (es1 = es2)) ∧
    (es1 = es2 ↔ es1.length = es2.length ∧ ∀ i : Nat, es1[i]? = es2[i]?) ∧
    LinkedList.cmpImpl cmp m1 l1 m2 l2 = some (lexCmp cmp es1 es2) ∧
    LinkedList.partialCmpImpl pc m1 l1 m2 l2 = some (plexCmp pc es1 es2) ∧
    LinkedList.hashTrace m1 l1 = some (es1.length, es1) := by
  have hl1 : l1.len = es1.length := h1.2.1.trans h1.1.length_eq.symm
  have hl2 : l2.len = es2.length := h2.2.1.trans h2.1.length_eq.symm
  refine ⟨?_, ?_, ?_, ?_, ?_⟩
  · rw [LinkedList.eqImpl]
    rw [seq_spec h1, seq_spec h2]
    simp only [Option.bind_eq_bind, Option.some_bind, hl1, hl2]
    by_cases he : es1 = es2
    · subst he
      simp
    · simp [he]
  · constructor
    · intro he
      subst he
      exact ⟨rfl, fun _ => rfl⟩
    · intro ⟨_, hi⟩
      exact List.ext_getElem? hi
  · rw [LinkedList.cmpImpl, seq_spec h1, seq_spec h2]
    rfl
  · rw [LinkedList.partialCmpImpl, seq_spec h1, seq_spec h2]
    rfl
  · rw [LinkedList.hashTrace, seq_spec h1]
    simp [hl1]

theorem claim_C1_structural_invariants_witness :
    ∃ m' l', exList3.push_front exMem3 5 = some (m', l') ∧
      ListRepr m' l' (exMem3.nextAddr :: [0, 1, 2]) (5 :: [1, 2, 3]) :=
  claim_C1_structural_invariants.2.2.1 exMem3 exList3 [0, 1, 2] [1, 2, 3] 5 exRepr3

theorem claim_C2_split_splice_inverse_witness :
    ∃ m1 c1 r m2 c2 rr,
      exCur3.split_after exMem3 = some (m1, c1, r) ∧
      c1.splice_after m1 r = some (m2, c2, rr) ∧
      ∃ as2, CursorRepr m2 c2 as2 [1, 2, 3] ∧ c2.list.len = exCur3.list.len :=
  claim_C2_split_splice_inverse exMem3 exCur3 [0, 1, 2] [1, 2, 3] exCurRepr3

theorem claim_C3_splice_semantics_witness :
    ∃ m' c' rr, exCurA.splice_before exMem5 exListB = some (m', c', rr) ∧
      rr.len = 0 ∧ ListRepr m' rr [] [] ∧
      CursorRepr m' c'
        (([0, 1, 2] : List Nat).take 1 ++ [3, 4] ++ ([0, 1, 2] : List Nat).drop 1)
        (([1, 2, 3] : List Nat).take 1 ++ [10, 20] ++ ([1, 2, 3] : List Nat).drop 1) ∧
      c'.list.len = exCurA.list.len + exListB.len :=
  (claim_C3_splice_semantics.2.1 exMem5 exCurA [0, 1, 2] [3, 4] [1, 2, 3] [10, 20]
    1 1 exListB exCurReprA rfl rfl exReprB (by decide)
    (by intro x hx hy; simp at hx hy; omega)).1

theorem claim_C4_split_partition_witness :
    ∃ m' c' r, exCur3.split_before exMem3 = some (m', c', r) ∧
      ListRepr m' r (([0, 1, 2] : List Nat).take 1) (([1, 2, 3] : List Nat).take 1) ∧
      r.len = 1 ∧
      CursorRepr m' c' (([0, 1, 2] : List Nat).drop 1) (([1, 2, 3] : List Nat).drop 1) ∧
      c'.cur = some 1 ∧ c'.index = some 0 ∧
      c'.list.len = ([0, 1, 2] : List Nat).length - 1 :=
  (claim_C4_split_partition.1 exMem3 exCur3 [0, 1, 2] [1, 2, 3] 1 1 exCurRepr3 rfl rfl).1

theorem claim_C5_remove_current_witness :
    ∃ m' c' e, exCur3.remove_current exMem3 = some (m', c', some e) ∧
      ([1, 2, 3] : List Nat)[1]? = some e ∧
      c'.cur = ([0, 1, 2] : List Nat)[1 + 1]? ∧
      c'.index = (if 1 + 1 < ([0, 1, 2] : List Nat).length then some 1 else none) ∧
      CursorRepr m' c'
        (([0, 1, 2] : List Nat).take 1 ++ ([0, 1, 2] : List Nat).drop (1 + 1))
        (([1, 2, 3] : List Nat).take 1 ++ ([1, 2, 3] : List Nat).drop (1 + 1)) ∧
      c'.list.len = exCur3.list.len - 1 :=
  claim_C5_remove_current.1 exMem3 exCur3 [0, 1, 2] [1, 2, 3] 1 1 exCurRepr3 rfl rfl

theorem claim_C6_cursor_state_machine_witness :
    ∃ c', exCur3.move_next exMem3 = some c' ∧ c'.list = exCur3.list ∧
      ((exCur3.cur = none ∧ ([0, 1, 2] : List Nat) = [] ∧ c' = exCur3) ∨
       (exCur3.cur = none ∧ ([0, 1, 2] : List Nat) ≠ [] ∧
         c'.cur = ([0, 1, 2] : List Nat)[0]? ∧ c'.index = some 0) ∨
       (∃ a i, exCur3.cur = some a ∧ exCur3.index = some i ∧
         c'.cur = ([0, 1, 2] : List Nat)[i + 1]? ∧
         c'.index = (if i + 1 < ([0, 1, 2] : List Nat).length then some (i + 1)
           else none))) :=
  (claim_C6_cursor_state_machine.2 exMem3 exCur3 [0, 1, 2] [1, 2, 3] exCurRepr3).1

theorem claim_C7_double_ended_iterator_witness :
    List.filterMap id
        (selB true [true, false] (twoEnd ([1, 2, 3] : List Nat) [true, false] 0 0)) =
      ([1, 2, 3] : List Nat).take
        ((([true, false] : List Bool).take ([1, 2, 3] : List Nat).length).count true) :=
  (claim_C7_double_ended_iterator exMem3 exList3 [0, 1, 2] [1, 2, 3] [true, false]
    exRepr3).2.1

theorem claim_C8_fifo_lifo_witness :
    (LinkedList.new : LinkedList Nat).pop_front (emptyMem Nat) =
      some (emptyMem Nat, LinkedList.new, none) :=
  claim_C8_fifo_lifo.2.2.2 (emptyMem Nat)

theorem claim_C9_eq_ord_hash_witness :
    LinkedList.eqImpl exMem5 exListA exMem5 exListB =
      some (decide (([1, 2, 3] : List Nat) = [10, 20])) :=
  (claim_C9_eq_ord_hash exMem5 exMem5 exListA exListB [0, 1, 2] [3, 4]
    [1, 2, 3] [10, 20] compare (fun a b => some (compare a b)) exReprA exReprB).1

theorem claim_C10_cursor_invariant_witness :
    (∃ c', exCur3.move_next exMem3 = some c' ∧
      CursorRepr exMem3 c' [0, 1, 2] [1, 2, 3]) ∧
    (∃ c', exCur3.move_prev exMem3 = some c' ∧
      CursorRepr exMem3 c' [0, 1, 2] [1, 2, 3]) ∧
    (∃ m' c' r, exCur3.split_before exMem3 = some (m', c', r) ∧
      ∃ as' es', CursorRepr m' c' as' es') ∧
    (∃ m' c' r, exCur3.split_after exMem3 = some (m', c', r) ∧
      ∃ as' es', CursorRepr m' c' as' es') ∧
    (∃ m' c' r, exCur3.remove_current exMem3 = some (m', c', r) ∧
      ∃ as' es', CursorRepr m' c' as' es') :=
  claim_C10_cursor_invariant.1 exMem3 exCur3 [0, 1, 2] [1, 2, 3] exCurRepr3
